import Mathlib

/-
Verification of the checker/orchestration pipeline of the A11y
accessibility-testing framework. The JavaScript sources are shallowly
embedded: asynchronous functions become pure functions over explicit
outcome values (Except for code that can throw), the event-loop driven
concurrency of the bounded runner becomes a deterministic discrete
simulation parameterised by task latencies, and JS truthiness of string
fields is modelled explicitly (absent and empty strings are falsy).
-/

namespace A11y

/-- Decidable equality for Except values, needed so that witnesses can
be checked by evaluation. -/
instance {ε α : Type} [DecidableEq ε] [DecidableEq α] : DecidableEq (Except ε α) := fun x y =>
  match x, y with
  | .ok a, .ok b =>
    if h : a = b then .isTrue (by rw [h]) else .isFalse (by intro hc; cases hc; exact h rfl)
  | .error a, .error b =>
    if h : a = b then .isTrue (by rw [h]) else .isFalse (by intro hc; cases hc; exact h rfl)
  | .ok _, .error _ => .isFalse (by intro hc; cases hc)
  | .error _, .ok _ => .isFalse (by intro hc; cases hc)

/-- JS truthiness of an optional string field: an absent value and the
empty string are falsy, every other string is truthy. -/
def jsTruthy : Option String → Bool
  | none => false
  | some s => s != ""

/-! ## Checker results and the checker manager (src/checkers) -/

/-- Result object handed to CheckerManager.processCheckResult. Only the
fields read by the summary counters are modelled: success (absent, true
or false, so that the strict comparison with false is faithful) and
error (absent or a string). The metadata fields (checker, pageName,
timestamp, details) do not influence the counters. -/
structure CheckResult where
  success : Option Bool
  error : Option String
deriving DecidableEq, Repr

/-- Summary block of CheckerManager.runAllChecks. -/
structure CheckSummary where
  totalChecks : Nat
  passed : Nat
  failed : Nat
  errors : Nat
  successRate : Nat
deriving DecidableEq, Repr

namespace CheckerManager

/-- CheckerManager.processCheckResult: classify one checker result into
the summary counters. The code first tests result.success === false and
then branches on the truthiness of result.error. -/
def processCheckResult (s : CheckSummary) (result : CheckResult) : CheckSummary :=
  if result.success == some false then
    if jsTruthy result.error then { s with errors := s.errors + 1 }
    else { s with failed := s.failed + 1 }
  else { s with passed := s.passed + 1 }

/-- CheckerManager.runSingleCheck: a checker whose run call throws is
converted into a result with success false carrying the error message. -/
def runSingleCheck (outcome : Except String CheckResult) : CheckResult :=
  match outcome with
  | .ok r => r
  | .error msg => { success := some false, error := some msg }

/-- Math.round(passed / total * 100) for nonnegative inputs, computed on
rationals as an integer division: floor of the value plus one half. -/
def successRatePct (passed total : Nat) : Nat :=
  if 0 < total then (passed * 100 * 2 + total) / (2 * total) else 0

/-- CheckerManager.runAllChecks reduced to its aggregation: the per
checker run outcomes (a throw or a returned result, one per checker) are
folded through runSingleCheck and processCheckResult, and the success
rate is attached at the end. The priority sort only permutes the order
of the fold and cannot change the counters. -/
def runAllChecks (outcomes : List (Except String CheckResult)) : CheckSummary :=
  let base : CheckSummary :=
    { totalChecks := outcomes.length, passed := 0, failed := 0, errors := 0, successRate := 0 }
  let folded := outcomes.foldl (fun s o => processCheckResult s (runSingleCheck o)) base
  { folded with successRate := successRatePct folded.passed folded.totalChecks }

end CheckerManager

namespace BaseChecker

/-- BaseChecker.run: the outcome of the subclass executeCheck call is
either a returned result, whose success flag is overwritten with the
negation of the truthiness of its error field, or a thrown error, which
becomes a result with success false carrying the message. The function
itself never throws. -/
def run (executeOutcome : Except String CheckResult) : CheckResult :=
  match executeOutcome with
  | .ok result => { result with success := some (!(jsTruthy result.error)) }
  | .error msg => { success := some false, error := some msg }

end BaseChecker

/-! ## Retry and timeout primitives (src/utils/asyncUtils.js) -/

namespace AsyncUtils

/-- Options object of AsyncUtils.retry with the defaults of the code. -/
structure RetryOptions where
  maxAttempts : Nat := 3
  baseDelay : Nat := 1000
  maxDelay : Nat := 10000
  backoffFactor : Nat := 2
  retryCondition : String → Bool := fun _ => true

/-- Observable trace of one retry run: the final outcome (error none
models rethrowing the undefined lastError when the loop never ran), the
number of invocations of the operation, and the waits performed. -/
structure RetryTrace (α : Type) where
  result : Except (Option String) α
  calls : Nat
  delays : List Nat
deriving DecidableEq, Repr

/-- Delay applied after a failed attempt:
min(baseDelay * backoffFactor ^ (attempt - 1), maxDelay). -/
def backoffDelay (o : RetryOptions) (attempt : Nat) : Nat :=
  Nat.min (o.baseDelay * o.backoffFactor ^ (attempt - 1)) o.maxDelay

/-- Loop body of AsyncUtils.retry. The operation is modelled as a
function from the attempt number (starting at 1) to that invocation
outcome; fuel is the number of loop iterations still allowed, so the
fuel is zero exactly when attempt exceeds maxAttempts, and the branch on
fuel one matches the attempt === maxAttempts break. -/
def retryAux (f : Nat → Except String α) (o : RetryOptions) :
    Nat → Nat → Nat → List Nat → Option String → RetryTrace α
  | 0, _, calls, delays, lastError => ⟨.error lastError, calls, delays⟩
  | fuel + 1, attempt, calls, delays, _ =>
    match f attempt with
    | .ok v => ⟨.ok v, calls + 1, delays⟩
    | .error e =>
      if !o.retryCondition e then ⟨.error (some e), calls + 1, delays⟩
      else if fuel == 0 then ⟨.error (some e), calls + 1, delays⟩
      else retryAux f o fuel (attempt + 1) (calls + 1)
        (delays ++ [backoffDelay o attempt]) (some e)

/-- AsyncUtils.retry: attempt the operation up to maxAttempts times,
rethrowing immediately when retryCondition rejects the error, and
waiting backoffDelay between attempts. -/
def retry (f : Nat → Except String α) (o : RetryOptions) : RetryTrace α :=
  retryAux f o o.maxAttempts 1 0 [] none

/-- A pending operation for the timeout race: the instant at which it
settles and the value or rejection it settles with. -/
structure AsyncOp (α : Type) where
  settleTime : Nat
  outcome : Except String α
deriving DecidableEq, Repr

/-- AsyncUtils.withTimeout: Promise.race between the operation and a
timer that rejects with the timeout message. The pair carries the race
outcome together with the operation itself, returned unchanged: nothing
in the code cancels the losing operation, it keeps running. When the
operation settles strictly before the timer fires it wins the race;
otherwise the race rejects with the timeout error. -/
def withTimeout (op : AsyncOp α) (timeoutMs : Nat)
    (timeoutMessage : String := "Operation timed out") :
    Except String α × AsyncOp α :=
  (if op.settleTime < timeoutMs then op.outcome else .error timeoutMessage, op)

end AsyncUtils

/-! ## Axe scanning with legacy fallback (src/core/legacyScanner.js) -/

/-- Result shape flowing out of TestEngine.runAxeScan. The violation,
pass, incomplete and inapplicable entries are abstract strings; the
error field and the two fallback tags are exactly the fields the code
reads and writes. -/
structure AxeResult where
  violations : List String
  passes : List String
  incomplete : List String
  inapplicable : List String
  url : String
  pageName : String
  timestamp : Nat
  error : Option String
  usedLegacyFallback : Bool
  failedFallback : Bool
deriving DecidableEq, Repr

/-- Raw payload of an in-page window.axe.run evaluation. -/
structure RawAxe where
  violations : List String
  passes : List String
  incomplete : List String
  inapplicable : List String
deriving DecidableEq, Repr

namespace LegacyScanner

/-- LegacyScanner.scanPage: the in-page evaluation either throws, which
is rethrown, or yields raw axe results that are stamped with the page
name as url, the current timestamp and the page name. -/
def scanPage (evalOutcome : Except String RawAxe) (pageName : String) (now : Nat) :
    Except String AxeResult :=
  match evalOutcome with
  | .error e => .error e
  | .ok raw =>
    .ok { violations := raw.violations, passes := raw.passes,
          incomplete := raw.incomplete, inapplicable := raw.inapplicable,
          url := pageName, pageName := pageName, timestamp := now,
          error := none, usedLegacyFallback := false, failedFallback := false }

end LegacyScanner

namespace TestEngine

/-- TestEngine.runAxeScan: try the modern scanner first; a throw, a
missing result (null or undefined) or a result carrying a truthy error
field all route to the legacy scanner, whose successful result is
tagged usedLegacyFallback. When the legacy scanner also throws, an
empty result shape tagged failedFallback and carrying the legacy error
message is returned. The function is total: it never throws. -/
def runAxeScan (modern : Except String (Option AxeResult))
    (legacyEval : Except String RawAxe) (pageName : String) (now : Nat) : AxeResult :=
  let fallback : AxeResult :=
    match LegacyScanner.scanPage legacyEval pageName now with
    | .ok legacyResult => { legacyResult with usedLegacyFallback := true }
    | .error legacyError =>
      { violations := [], passes := [], incomplete := [], inapplicable := [],
        url := pageName, timestamp := now, pageName := pageName,
        error := some legacyError, usedLegacyFallback := false, failedFallback := true }
  match modern with
  | .ok (some r) => if jsTruthy r.error then fallback else r
  | .ok none => fallback
  | .error _ => fallback

end TestEngine

/-! ## The bounded concurrency runner (AsyncUtils.concurrentLimit)

The runner is simulated as a deterministic discrete event loop. A task
is a latency (instants from its start until its promise settles) and an
outcome. The loop mirrors the code: each task is started in input order
and its promise is pushed into the results array and the executing set;
whenever the executing set has reached the limit the loop blocks on
Promise.race, which advances time to the earliest settlement, at which
point the settling tasks leave the executing set (their cleanup handlers
were attached at creation, so they run before the loop resumes). After
the loop, Promise.all waits for every remaining task. The returned array
holds, at index i, whatever the i-th pushed promise settled with. -/

namespace AsyncUtils

/-- A deferred task of concurrentLimit: once started, it settles with
outcome after latency instants. -/
structure ATask (α : Type) where
  latency : Nat
  outcome : Except String α
deriving DecidableEq, Repr

/-- A task currently in flight: its input index, the instants left until
it settles, and its settlement outcome. -/
structure InFlight (α : Type) where
  idx : Nat
  remaining : Nat
  outcome : Except String α
deriving DecidableEq, Repr

/-- Observable events of the simulation: a task starting and a task
settling. -/
inductive CEvent where
  | start (i : Nat)
  | settle (i : Nat)
deriving DecidableEq, Repr

/-- State of the simulated event loop: the executing set, the settlement
log in temporal order, the event trace, and the sizes the executing set
took after each mutation. -/
structure CState (α : Type) where
  executing : List (InFlight α)
  log : List (Nat × Except String α)
  events : List CEvent
  flightTrace : List Nat
deriving DecidableEq, Repr

/-- Earliest remaining settlement time among the in-flight tasks. -/
def minRemaining : List (InFlight α) → Nat
  | [] => 0
  | [f] => f.remaining
  | f :: g :: rest =>
    if f.remaining ≤ minRemaining (g :: rest) then f.remaining
    else minRemaining (g :: rest)

/-- One blocking wait on Promise.race(executing): time advances to the
earliest settlement; every task settling at that instant is appended to
the settlement log and removed from the executing set, the others keep
running with their remaining time reduced. -/
def advanceRace (st : CState α) : CState α :=
  let m := minRemaining st.executing
  let settled := st.executing.filter (fun f => f.remaining == m)
  let survivors := (st.executing.filter (fun f => !(f.remaining == m))).map
    (fun f => { f with remaining := f.remaining - m })
  { executing := survivors,
    log := st.log ++ settled.map (fun f => (f.idx, f.outcome)),
    events := st.events ++ settled.map (fun f => CEvent.settle f.idx),
    flightTrace := st.flightTrace ++ [survivors.length] }

/-- Start of the i-th task inside the loop body: the promise is created
(starting the task), pushed into the results array and added to the
executing set; the new size of the executing set is recorded. -/
def startTask (i : Nat) (t : ATask α) (st : CState α) : CState α :=
  { executing := st.executing ++ [⟨i, t.latency, t.outcome⟩],
    log := st.log,
    events := st.events ++ [CEvent.start i],
    flightTrace := st.flightTrace ++ [st.executing.length + 1] }

/-- Loop body of concurrentLimit for the i-th task, state part only:
start the task, then block on Promise.race when the executing set has
reached the limit. The throw behaviour of the awaited race lives in
stepTaskE; this pure projection is shared by the success path and the
proofs. -/
def stepTask (limit : Nat) (i : Nat) (t : ATask α) (st : CState α) : CState α :=
  if limit ≤ (startTask i t st).executing.length then advanceRace (startTask i t st)
  else startTask i t st

/-- The batch of in-flight tasks settling at the next settlement
instant, in insertion order: the executing set iterates in insertion
order and simultaneous timers fire in creation order, so the head of
this batch is the promise Promise.race adopts. -/
def settledBatch (st : CState α) : List (InFlight α) :=
  st.executing.filter (fun f => f.remaining == minRemaining st.executing)

/-- What the awaited Promise.race(executing) throws: the race adopts the
first settling promise, and when that winner rejects, the await rethrows
its reason inside concurrentLimit. A resolving winner just resumes the
loop, even when another promise of the same batch rejected (that
rejection surfaces later, at Promise.all). -/
def raceThrow (st : CState α) : Option String :=
  match settledBatch st with
  | [] => none
  | w :: _ =>
    match w.outcome with
    | .ok _ => none
    | .error e => some e

/-- Loop body of concurrentLimit with its error path: start the task;
when the executing set has reached the limit, await Promise.race, whose
rejection (a rejecting winner) is thrown out of the loop body. -/
def stepTaskE (limit : Nat) (i : Nat) (t : ATask α) (st : CState α) :
    CState α × Option String :=
  if limit ≤ (startTask i t st).executing.length then
    (advanceRace (startTask i t st), raceThrow (startTask i t st))
  else (startTask i t st, none)

/-- The for loop of concurrentLimit with its error path: a throwing
await aborts the loop, so the remaining tasks are never started and the
call rejects with the thrown error. -/
def runLoopE (limit : Nat) : Nat → List (ATask α) → CState α → CState α × Option String
  | _, [], st => (st, none)
  | i, t :: rest, st =>
    match stepTaskE limit i t st with
    | (st2, none) => runLoopE limit (i + 1) rest st2
    | (st2, some e) => (st2, some e)

/-- First rejection among a batch of simultaneous settlements, in
settlement order. -/
def firstError : List (InFlight α) → Option String
  | [] => none
  | f :: rest =>
    match f.outcome with
    | .error e => some e
    | .ok _ => firstError rest

/-- The waiting part of Promise.all(results): time advances batch by
batch over the still-running tasks; the accumulator keeps the earliest
rejection reason observed (an earlier one takes precedence), and the
tasks run to completion regardless, since nothing cancels them. -/
def drainE : Nat → CState α → Option String → CState α × Option String
  | 0, st, acc => (st, acc)
  | fuel + 1, st, acc =>
    if st.executing.isEmpty then (st, acc)
    else drainE fuel (advanceRace st) (acc <|> firstError (settledBatch st))

/-- Success test on a settlement outcome. -/
def okOutcome : Except String α → Bool
  | .ok _ => true
  | .error _ => false

/-- The for loop of concurrentLimit over the tasks, i being the index of
the next task to start. -/
def runLoop (limit : Nat) : Nat → List (ATask α) → CState α → CState α
  | _, [], st => st
  | i, t :: rest, st => runLoop limit (i + 1) rest (stepTask limit i t st)

/-- Fueled drain loop: race until the executing set is empty. -/
def drainFuel : Nat → CState α → CState α
  | 0, st => st
  | fuel + 1, st => if st.executing.isEmpty then st else drainFuel fuel (advanceRace st)

/-- Promise.all at the end of concurrentLimit: wait for every remaining
task to settle. Each race removes at least one in-flight task, so the
size of the executing set bounds the number of races needed. -/
def drain (st : CState α) : CState α := drainFuel st.executing.length st

/-- Initial state of the simulation. -/
def initState : CState α := ⟨[], [], [], []⟩

/-- Settlement of the promise carrying input index i, looked up in the
settlement log. -/
def lookupLog (i : Nat) : List (Nat × Except String α) → Option (Except String α)
  | [] => none
  | (j, o) :: rest => if i == j then some o else lookupLog i rest

/-- Rejection reason contributed by promises already settled when
Promise.all(results) subscribes: it attaches its handlers in index
order, and the reactions of already-settled promises queue immediately,
so the lowest-index already-rejected promise fires first, before any
future settlement. -/
def firstSettledError : List Nat → List (Nat × Except String α) → Option String
  | [], _ => none
  | i :: rest, log =>
    match lookupLog i log with
    | some (.error e) => some e
    | _ => firstSettledError rest log

/-- Coercion performed on the concurrency argument: a nonpositive value
becomes 1. -/
def normLimit (concurrency : Nat) : Nat :=
  if concurrency == 0 then 1 else concurrency

/-- The simulation state after the loop has started every task and
Promise.all has drained the remaining settlements. -/
def finalState (tasks : List (ATask α)) (limit : Nat) : CState α :=
  drain (runLoop limit 0 tasks initState)

/-- AsyncUtils.concurrentLimit: an empty task list short-circuits to an
empty resolved array; a nonpositive concurrency is coerced to 1. The
loop starts tasks in input order, blocking on Promise.race whenever the
executing set reaches the limit: when the race winner rejects, the
await throws, so the whole call rejects with that task error and the
remaining tasks are never started. When the loop completes,
Promise.all(results) resolves with the array of settlements in input
order if every task succeeded, and otherwise rejects with the first
rejection it observes: the lowest-index already-rejected promise, or
else the earliest rejection among the still-running tasks. The final
simulation state is returned next to the outcome so that the event
trace and the in-flight sizes can be inspected; after a wholesale
rejection the tasks still in flight keep running, merely unobserved. -/
def concurrentLimit (tasks : List (ATask α)) (concurrency : Nat) :
    Except String (List (Option (Except String α))) × CState α :=
  if tasks.length == 0 then (.ok [], initState)
  else
    match runLoopE (normLimit concurrency) 0 tasks initState with
    | (st, some e) => (.error e, st)
    | (st, none) =>
      match drainE st.executing.length st
          (firstSettledError (List.range tasks.length) st.log) with
      | (final, some e) => (.error e, final)
      | (final, none) =>
        (.ok ((List.range tasks.length).map (fun i => lookupLog i final.log)),
         final)

end AsyncUtils

/-! ## Zoom checker (src/checkers/zoomChecker.js) -/

namespace ZoomChecker

/-- Layout measurements taken inside the page, restricted to the fields
the overflow test reads. -/
structure LayoutData where
  bodyScrollWidth : Nat
  bodyScrollHeight : Nat
  windowInnerWidth : Nat
  windowInnerHeight : Nat
deriving DecidableEq, Repr

/-- Zoom mutations performed on the page body style. -/
inductive ZoomAction where
  | setZoom (pct : Nat)
  | resetZoom
deriving DecidableEq, Repr

/-- Outcome of ZoomChecker.testZoomLevel for one zoom level. Zoom levels
are in percent (200 stands for CSS zoom 2.0). -/
structure ZoomTestResult where
  zoomLevel : Nat
  success : Bool
  overflow : Bool
  layoutBroken : Bool
  error : Option String
deriving DecidableEq, Repr

/-- ZoomChecker.testZoomLevel, with the in-page work abstracted as one
measurement outcome: either the layout data plus the count of
significantly off-screen elements (checkLayoutBreakage swallows its own
errors into a count that fails the threshold), or a thrown error
message. Overflow holds when a scroll dimension exceeds the matching
viewport dimension by more than the 10 pixel tolerance; the layout is
broken when more than 5 elements are significantly off-screen. Both the
success path and the catch path reset the zoom, and the returned action
trace records the zoom mutations performed. -/
def testZoomLevel (zoomPct : Nat)
    (measurement : Except String (LayoutData × Nat)) :
    ZoomTestResult × List ZoomAction :=
  match measurement with
  | .ok (ld, offScreenCount) =>
    let overflow := decide (ld.windowInnerWidth + 10 < ld.bodyScrollWidth) ||
                    decide (ld.windowInnerHeight + 10 < ld.bodyScrollHeight)
    ({ zoomLevel := zoomPct, success := true, overflow := overflow,
       layoutBroken := decide (5 < offScreenCount), error := none },
     [ZoomAction.setZoom zoomPct, ZoomAction.resetZoom])
  | .error e =>
    ({ zoomLevel := zoomPct, success := false, overflow := false,
       layoutBroken := false, error := some e },
     [ZoomAction.setZoom zoomPct, ZoomAction.resetZoom])

/-- Recommendation block computed by ZoomChecker.calculateRecommendedZoom. -/
structure ZoomRecommendation where
  maxSupportedZoom : Nat
  supports200Percent : Bool
  supports150Percent : Bool
  supports125Percent : Bool
  meetsWCAG : Bool
deriving DecidableEq, Repr

/-- ZoomChecker.calculateRecommendedZoom: the largest zoom level among
the tests that succeeded with neither overflow nor layout breakage (100
percent when there is none), and the support flags derived from it. -/
def calculateRecommendedZoom (zoomTests : List ZoomTestResult) : ZoomRecommendation :=
  let successfulZooms := (zoomTests.filter
    (fun t => t.success && !t.overflow && !t.layoutBroken)).map (fun t => t.zoomLevel)
  let maxSuccessfulZoom := if successfulZooms.isEmpty then 100
    else successfulZooms.foldl Nat.max 0
  { maxSupportedZoom := maxSuccessfulZoom,
    supports200Percent := decide (200 ≤ maxSuccessfulZoom),
    supports150Percent := decide (150 ≤ maxSuccessfulZoom),
    supports125Percent := decide (125 ≤ maxSuccessfulZoom),
    meetsWCAG := decide (200 ≤ maxSuccessfulZoom) }

end ZoomChecker

/-! ## Accessibility tree checker (src/checkers/accessibilityTreeChecker.js) -/

namespace AccessibilityTreeChecker

/-- A node of the accessibility snapshot: role, accessible name and
heading level may each be absent, mirroring the optional fields of the
Playwright snapshot. -/
inductive AxNode where
  | node (role : Option String) (name : Option String) (level : Option Nat)
      (children : List AxNode)

/-- Roles recognised as landmarks by extractLandmarks. -/
def landmarkRoles : List String :=
  ["banner", "main", "navigation", "complementary", "contentinfo",
   "region", "search", "form"]

/-- Required landmark roles fixed in the checker constructor. -/
def requiredLandmarks : List String :=
  ["banner", "main", "navigation", "complementary", "contentinfo"]

/-- Landmark record pushed by extractLandmarks: role, name, level with
a falsy default of 0, and the number of child nodes. -/
structure Landmark where
  role : String
  name : Option String
  level : Nat
  children : Nat
deriving DecidableEq, Repr

mutual

/-- AccessibilityTreeChecker.extractLandmarks: pre-order walk pushing a
record for every node whose role is present and among the landmark
roles (the truthiness test on the role is subsumed by the membership
test, since the empty string is not a landmark role). -/
def extractLandmarks : AxNode → List Landmark
  | .node role name level children =>
    (match role with
     | some r =>
       if landmarkRoles.contains r then
         [{ role := r, name := name, level := level.getD 0,
            children := children.length }]
       else []
     | none => []) ++ extractLandmarksList children

/-- Accumulation of extractLandmarks over the children of a node. -/
def extractLandmarksList : List AxNode → List Landmark
  | [] => []
  | c :: cs => extractLandmarks c ++ extractLandmarksList cs

end

/-- Emptiness of a JS String.prototype.trim call: the trimmed string is
empty exactly when every character is whitespace. -/
def trimEmpty (s : String) : Bool := s.toList.all (fun c => c.isWhitespace)

/-- AccessibilityTreeChecker.checkLandmarkAccessibility, with issues
reduced to their type tags: a landmark with a falsy or whitespace-only
name yields a missing-name issue, and a main landmark with zero
children yields an empty-main issue. -/
def checkLandmarkAccessibility (landmark : Landmark) : List String :=
  (if !(jsTruthy landmark.name) || trimEmpty (landmark.name.getD "")
   then ["missing-name"] else []) ++
  (if landmark.role == "main" && landmark.children == 0
   then ["empty-main"] else [])

/-- AccessibilityTreeChecker.calculateLandmarkScore: 100 minus 20 per
missing required landmark minus 10 per issue, plus a bonus of 10 when at
least 3 landmarks are present, clamped to the range 0 to 100. -/
def calculateLandmarkScore (landmarks : List Landmark) (missing : List String)
    (issues : List String) : Int :=
  let base : Int := 100 - 20 * (missing.length : Int) - 10 * (issues.length : Int)
  let boosted : Int := if 3 ≤ landmarks.length then base + 10 else base
  max 0 (min 100 boosted)

/-- Landmark section of the checker result. The multiples field of the
code is omitted: it does not feed the score. -/
structure LandmarkReport where
  present : List Landmark
  missing : List String
  issues : List String
  score : Int

/-- AccessibilityTreeChecker.checkLandmarks: extract the landmarks,
compute the required roles that are absent and the per-landmark issues,
and score the result. -/
def checkLandmarks (axTree : AxNode) : LandmarkReport :=
  let landmarks := extractLandmarks axTree
  let presentRoles := landmarks.map (fun l => l.role)
  let missingRequired := requiredLandmarks.filter
    (fun role => !(presentRoles.contains role))
  let landmarkIssues := landmarks.flatMap checkLandmarkAccessibility
  { present := landmarks, missing := missingRequired, issues := landmarkIssues,
    score := calculateLandmarkScore landmarks missingRequired landmarkIssues }

end AccessibilityTreeChecker

/-! ## Test engine orchestration (src/core/legacyScanner.js, TestEngine)

The suite run is modelled at the granularity of the mutations performed
on the shared testResults object. Each page is an abstract description
of what the environment does for it: the navigation outcome, the two
scanner outcomes and the checker outcomes. The sequential scanning path
(concurrency 1) is modelled; every awaited automation call is a
suspension point, so the listed mutations are the observable states of
the run. -/

namespace TestEngine

/-- An entry of the testResults errors list: logError records the phase
and the error message (stack, timestamp and context are dropped). -/
structure ErrorRecord where
  phase : String
  message : String
deriving DecidableEq, Repr

/-- An entry of the testResults warnings list, reduced to its type tag
and page. -/
structure Warning where
  wtype : String
  page : String
deriving DecidableEq, Repr

/-- A mutation of the shared testResults object. -/
inductive EngineEvent where
  | pushAxe (r : AxeResult)
  | pushExtra (r : CheckSummary)
  | logError (e : ErrorRecord)
  | pushWarning (w : Warning)
deriving DecidableEq, Repr

/-- The testResults aggregate, restricted to the lists the claims are
about. The screenshots list is omitted: the collection branch tests a
keyboardFocus field that runAllChecks results never carry, so it never
fires. -/
structure TRState where
  axeResults : List AxeResult
  extraResults : List CheckSummary
  errors : List ErrorRecord
  warnings : List Warning
deriving DecidableEq, Repr

/-- Application of one mutation. -/
def applyEvent (st : TRState) : EngineEvent → TRState
  | .pushAxe r => { st with axeResults := st.axeResults ++ [r] }
  | .pushExtra r => { st with extraResults := st.extraResults ++ [r] }
  | .logError e => { st with errors := st.errors ++ [e] }
  | .pushWarning w => { st with warnings := st.warnings ++ [w] }

/-- Sequential application of mutations. -/
def foldEvents (st : TRState) (es : List EngineEvent) : TRState :=
  es.foldl applyEvent st

/-- The empty testResults object the engine starts from. -/
def initTR : TRState := ⟨[], [], [], []⟩

/-- Environment description of one page of the run: the navigation
outcome, whether an emergency screenshot could be taken on navigation
failure, the modern scanner outcome, the in-page legacy evaluation
outcome, and the run outcomes of the extra checkers. -/
structure PageSpec where
  name : String
  navOutcome : Except String Unit
  navScreenshot : Option String
  modernScan : Except String (Option AxeResult)
  legacyEval : Except String RawAxe
  checkOutcomes : List (Except String CheckResult)
deriving DecidableEq, Repr

/-- TestEngine.processPage as the ordered mutations it performs,
together with the error it rethrows when navigation fails. A failed
navigation records an emergency-screenshot warning when a screenshot
could be taken, then the page_processing error record, and rethrows.
After a successful navigation the axe scan result is pushed and then
the extra checks result; neither runAxeScan nor runAllChecks throws. -/
def processPageEvents (p : PageSpec) : List EngineEvent × Option String :=
  match p.navOutcome with
  | .error e =>
    ((match p.navScreenshot with
      | some _ => [EngineEvent.pushWarning ⟨"navigation_screenshot", p.name⟩]
      | none => []) ++ [EngineEvent.logError ⟨"page_processing", e⟩], some e)
  | .ok _ =>
    ([EngineEvent.pushAxe (runAxeScan p.modernScan p.legacyEval p.name 0),
      EngineEvent.pushExtra (CheckerManager.runAllChecks p.checkOutcomes)], none)

/-- Mutations contributed by one page in the sequential scanning loop
with continueOnError true: the processPage mutations plus, when
processPage threw, the page_scan error record logged by the loop
catch. -/
def scanPageEvents (p : PageSpec) : List EngineEvent :=
  match processPageEvents p with
  | (evs, none) => evs
  | (evs, some e) => evs ++ [EngineEvent.logError ⟨"page_scan", e⟩]

/-- All mutations of a sequential continue-on-error scanning phase. -/
def runEvents (pages : List PageSpec) : List EngineEvent :=
  pages.flatMap scanPageEvents

/-- All intermediate states of the scanning phase, in order: the state
before any mutation and the state after each mutation. -/
def statesFrom (st : TRState) : List EngineEvent → List TRState
  | [] => [st]
  | e :: es => st :: statesFrom (applyEvent st e) es

/-- Observable state trace of a sequential continue-on-error scanning
phase starting from the fresh testResults object. -/
def scanTrace (pages : List PageSpec) : List TRState :=
  statesFrom initTR (runEvents pages)

/-- TestEngine.scanningPhase over the pages sequentially: each page
applies its processPage mutations; when a page throws, the loop catch
logs the page_scan record, and with continueOnError false the exception
propagates to the phase catch, which logs a scanning record and
rethrows. -/
def scanningPhase (continueOnError : Bool) :
    List PageSpec → TRState → TRState × Option String
  | [], st => (st, none)
  | p :: rest, st =>
    match processPageEvents p with
    | (evs, none) => scanningPhase continueOnError rest (foldEvents st evs)
    | (evs, some e) =>
      let st1 := applyEvent (foldEvents st evs) (.logError ⟨"page_scan", e⟩)
      if continueOnError then scanningPhase continueOnError rest st1
      else (applyEvent st1 (.logError ⟨"scanning", e⟩), some e)

/-- Entry guard of the scanning phase: an empty page list throws inside
the phase try block, so the phase catch logs a scanning record and
rethrows. -/
def scanningPhaseRun (continueOnError : Bool) (pages : List PageSpec)
    (st : TRState) : TRState × Option String :=
  if pages.isEmpty then
    (applyEvent st (.logError ⟨"scanning", "No pages configured for scanning"⟩),
     some "No pages configured for scanning")
  else scanningPhase continueOnError pages st

/-- Final result of a suite run: the testResults aggregate plus the
success flag. -/
structure SuiteResult where
  state : TRState
  success : Bool
deriving DecidableEq, Repr

/-- TestEngine.runTestSuite with the setup phase (validation, process
cleanup, app launch, main-window acquisition) abstracted as one outcome.
A setup failure is logged by the phase with phase setup, rethrown and
caught by the suite catch, which adds the unknown-phase record and
forces success false. Otherwise the scanning phase runs; if it rethrows,
the suite catch adds the unknown-phase record and forces success false;
if it completes, the reporting and cleanup phases swallow their own
errors, and success is set to whether the errors list is empty. -/
def runTestSuite (setup : Except String Unit) (pages : List PageSpec)
    (continueOnError : Bool) : SuiteResult :=
  match setup with
  | .error e =>
    { state := { initTR with
        errors := [⟨"setup", e⟩, ⟨"unknown", e⟩] }, success := false }
  | .ok _ =>
    match scanningPhaseRun continueOnError pages initTR with
    | (st, none) => { state := st, success := st.errors.isEmpty }
    | (st, some e) =>
      { state := { st with errors := st.errors ++ [⟨"unknown", e⟩] },
        success := false }

end TestEngine

/-! ## Derived notions used by the statements -/

namespace CheckerManager

/-- A result the summary counts as an error: success is the literal
false and the error field is truthy. -/
def isErrorResult (r : CheckResult) : Bool :=
  (r.success == some false) && jsTruthy r.error

/-- A result the summary counts as failed: success is the literal false
with no truthy error. -/
def isFailedResult (r : CheckResult) : Bool :=
  (r.success == some false) && !(jsTruthy r.error)

/-- A result the summary counts as passed: anything whose success is not
the literal false. -/
def isPassedResult (r : CheckResult) : Bool :=
  !(r.success == some false)

end CheckerManager

namespace TestEngine

/-- The condition under which runAxeScan abandons the modern scanner: a
throw, a missing result, or a result with a truthy error field. -/
def primaryScanFails (modern : Except String (Option AxeResult)) : Bool :=
  match modern with
  | .error _ => true
  | .ok none => true
  | .ok (some r) => jsTruthy r.error

/-- A page whose navigation succeeds, and hence reaches the scan step. -/
def isNavOk (p : PageSpec) : Bool :=
  match p.navOutcome with
  | .ok _ => true
  | .error _ => false

/-- An event appending to the axe or extra result lists. -/
def isPushEvent : EngineEvent → Bool
  | .pushAxe _ => true
  | .pushExtra _ => true
  | _ => false

/-- An event appending an error record. -/
def isErrorEvent : EngineEvent → Bool
  | .logError _ => true
  | _ => false

end TestEngine

namespace AsyncUtils

/-- A task-start event. -/
def isStart : CEvent → Bool
  | .start _ => true
  | .settle _ => false

/-- The expected start events of n tasks started once each in input
order, from index i. -/
def startList : Nat → Nat → List CEvent
  | _, 0 => []
  | i, n + 1 => CEvent.start i :: startList (i + 1) n

/-- The event trace of strictly sequential execution: each task settles
before the next starts. -/
def seqEvents : Nat → List (ATask α) → List CEvent
  | _, [] => []
  | i, _ :: rest => CEvent.start i :: CEvent.settle i :: seqEvents (i + 1) rest

/-- Joint content of the settlement log and the executing set, as
settlement pairs: the multiset of index and outcome pairs the
simulation is carrying. -/
def pairsOf (st : CState α) : List (Nat × Except String α) :=
  st.log ++ st.executing.map (fun f => (f.idx, f.outcome))

/-- The settlement pairs of the tasks in input order starting at index
i: each task settles with its own outcome. -/
def canonical : Nat → List (ATask α) → List (Nat × Except String α)
  | _, [] => []
  | i, t :: rest => (i, t.outcome) :: canonical (i + 1) rest

end AsyncUtils

/-! ## Concrete inputs used by witnesses and counterexamples -/

/-- Three tasks with scrambled completion latencies, the middle one
failing. -/
def demoTasks : List (AsyncUtils.ATask Nat) :=
  [⟨5, .ok 10⟩, ⟨1, .error "boom"⟩, ⟨3, .ok 30⟩]

/-- Three tasks with scrambled completion latencies, all succeeding. -/
def demoOkTasks : List (AsyncUtils.ATask Nat) :=
  [⟨5, .ok 10⟩, ⟨1, .ok 20⟩, ⟨3, .ok 30⟩]

/-- An operation that fails on its first two invocations and then
succeeds. -/
def demoFlaky : Nat → Except String Nat :=
  fun n => if 3 ≤ n then .ok 42 else .error "transient"

/-- A page with exactly three landmarks, covering three of the five
required roles, all named and the main landmark nonempty: two required
landmarks are missing and no landmark issue arises. -/
def demoLandmarkPage : AccessibilityTreeChecker.AxNode :=
  .node none none none
    [.node (some "banner") (some "Site header") none [],
     .node (some "main") (some "Main content") none
       [.node (some "text") (some "body") none []],
     .node (some "navigation") (some "Primary nav") none []]

/-- A page with all five required landmarks present, all named and the
main landmark nonempty. -/
def fullLandmarkPage : AccessibilityTreeChecker.AxNode :=
  .node none none none
    [.node (some "banner") (some "Site header") none [],
     .node (some "navigation") (some "Primary nav") none [],
     .node (some "main") (some "Main content") none
       [.node (some "text") (some "body") none []],
     .node (some "complementary") (some "Sidebar") none [],
     .node (some "contentinfo") (some "Footer") none []]

/-- Zoom measurements for the four standard levels: fine at 100, 125 and
150 percent, overflowing at 200 percent with scrollWidth 1481 against
innerWidth 900. -/
def demoZoomTests : List ZoomChecker.ZoomTestResult :=
  [(ZoomChecker.testZoomLevel 100 (.ok (⟨900, 800, 900, 900⟩, 0))).1,
   (ZoomChecker.testZoomLevel 125 (.ok (⟨905, 800, 900, 900⟩, 0))).1,
   (ZoomChecker.testZoomLevel 150 (.ok (⟨908, 800, 900, 900⟩, 0))).1,
   (ZoomChecker.testZoomLevel 200 (.ok (⟨1481, 800, 900, 900⟩, 0))).1]

/-- A raw axe payload with no findings. -/
def cleanRaw : RawAxe := ⟨[], [], [], []⟩

/-- A clean modern scan result for page A. -/
def cleanAxeA : AxeResult :=
  ⟨[], [], [], [], "pageA", "pageA", 0, none, false, false⟩

/-- Page A: navigation succeeds, the modern scan is clean, one passing
extra check. -/
def pageA : TestEngine.PageSpec :=
  { name := "pageA", navOutcome := .ok (), navScreenshot := none,
    modernScan := .ok (some cleanAxeA), legacyEval := .ok cleanRaw,
    checkOutcomes := [.ok ⟨some true, none⟩] }

/-- Page B: navigation throws. -/
def pageB : TestEngine.PageSpec :=
  { name := "pageB", navOutcome := .error "click timeout", navScreenshot := none,
    modernScan := .ok none, legacyEval := .ok cleanRaw,
    checkOutcomes := [] }

/-! ## Helper lemmas -/

/-- The aggregation fold adds to each counter the number of results of
its class. -/
theorem runAllChecks_foldl_counts (outcomes : List (Except String CheckResult))
    (s : CheckSummary) :
    outcomes.foldl
        (fun acc o => CheckerManager.processCheckResult acc (CheckerManager.runSingleCheck o)) s =
      { s with
        passed := s.passed +
          outcomes.countP (fun o => CheckerManager.isPassedResult (CheckerManager.runSingleCheck o)),
        failed := s.failed +
          outcomes.countP (fun o => CheckerManager.isFailedResult (CheckerManager.runSingleCheck o)),
        errors := s.errors +
          outcomes.countP (fun o => CheckerManager.isErrorResult (CheckerManager.runSingleCheck o)) } := by
  induction outcomes generalizing s with
  | nil => simp
  | cons o os ih =>
    rw [List.foldl_cons, ih]
    by_cases h1 : (CheckerManager.runSingleCheck o).success == some false
    · by_cases h2 : jsTruthy (CheckerManager.runSingleCheck o).error
      · simp [CheckerManager.processCheckResult, CheckerManager.isPassedResult,
          CheckerManager.isFailedResult, CheckerManager.isErrorResult, h1, h2,
          List.countP_cons]
        omega
      · simp [CheckerManager.processCheckResult, CheckerManager.isPassedResult,
          CheckerManager.isFailedResult, CheckerManager.isErrorResult, h1, h2,
          List.countP_cons]
        omega
    · simp [CheckerManager.processCheckResult, CheckerManager.isPassedResult,
        CheckerManager.isFailedResult, CheckerManager.isErrorResult, h1,
        List.countP_cons]
      omega

/-- Exactly one of the three result classes holds of any result, so the
three counters partition the processed results. -/
theorem countP_classes_partition (outcomes : List (Except String CheckResult)) :
    outcomes.countP (fun o => CheckerManager.isPassedResult (CheckerManager.runSingleCheck o)) +
      outcomes.countP (fun o => CheckerManager.isFailedResult (CheckerManager.runSingleCheck o)) +
      outcomes.countP (fun o => CheckerManager.isErrorResult (CheckerManager.runSingleCheck o)) =
      outcomes.length := by
  induction outcomes with
  | nil => simp
  | cons o os ih =>
    rw [List.countP_cons, List.countP_cons, List.countP_cons, List.length_cons]
    by_cases h1 : (CheckerManager.runSingleCheck o).success == some false
    · by_cases h2 : jsTruthy (CheckerManager.runSingleCheck o).error
      · have hp : CheckerManager.isPassedResult (CheckerManager.runSingleCheck o) = false := by
          simp [CheckerManager.isPassedResult, h1]
        have hf : CheckerManager.isFailedResult (CheckerManager.runSingleCheck o) = false := by
          simp [CheckerManager.isFailedResult, h2]
        have he : CheckerManager.isErrorResult (CheckerManager.runSingleCheck o) = true := by
          simp [CheckerManager.isErrorResult, h1, h2]
        rw [hp, hf, he]; simp; omega
      · have hp : CheckerManager.isPassedResult (CheckerManager.runSingleCheck o) = false := by
          simp [CheckerManager.isPassedResult, h1]
        have hf : CheckerManager.isFailedResult (CheckerManager.runSingleCheck o) = true := by
          simp [CheckerManager.isFailedResult, h1, h2]
        have he : CheckerManager.isErrorResult (CheckerManager.runSingleCheck o) = false := by
          simp [CheckerManager.isErrorResult, h2]
        rw [hp, hf, he]; simp; omega
    · have hp : CheckerManager.isPassedResult (CheckerManager.runSingleCheck o) = true := by
        simp [CheckerManager.isPassedResult, h1]
      have hf : CheckerManager.isFailedResult (CheckerManager.runSingleCheck o) = false := by
        simp [CheckerManager.isFailedResult, h1]
      have he : CheckerManager.isErrorResult (CheckerManager.runSingleCheck o) = false := by
        simp [CheckerManager.isErrorResult, h1]
      rw [hp, hf, he]; simp; omega

/-! ## Claim theorems -/

/-- C2: for every set of per-checker results processed by
CheckerManager.runAllChecks, the summary counters partition the results:
a result with success false and a truthy error increments errors, a
result with success false and no truthy error increments failed, every
other result increments passed, and successRate is the rounded
percentage of passed over totalChecks. For three checkers where one
throws, one returns a negative result without throwing, and one
succeeds, the summary is errors 1, failed 1, passed 1 with successRate
33. -/
theorem checkerManager_summary_partition :
    (∀ outcomes : List (Except String CheckResult),
      (CheckerManager.runAllChecks outcomes).totalChecks = outcomes.length ∧
      (CheckerManager.runAllChecks outcomes).errors =
        outcomes.countP (fun o => CheckerManager.isErrorResult (CheckerManager.runSingleCheck o)) ∧
      (CheckerManager.runAllChecks outcomes).failed =
        outcomes.countP (fun o => CheckerManager.isFailedResult (CheckerManager.runSingleCheck o)) ∧
      (CheckerManager.runAllChecks outcomes).passed =
        outcomes.countP (fun o => CheckerManager.isPassedResult (CheckerManager.runSingleCheck o)) ∧
      (CheckerManager.runAllChecks outcomes).passed +
        (CheckerManager.runAllChecks outcomes).failed +
        (CheckerManager.runAllChecks outcomes).errors = outcomes.length ∧
      (CheckerManager.runAllChecks outcomes).successRate =
        CheckerManager.successRatePct (CheckerManager.runAllChecks outcomes).passed
          outcomes.length) ∧
    CheckerManager.runAllChecks
        [Except.error "checker exploded", .ok ⟨some false, none⟩, .ok ⟨some true, none⟩] =
      ⟨3, 1, 1, 1, 33⟩ := by
  constructor
  · intro outcomes
    have h := runAllChecks_foldl_counts outcomes
      ⟨outcomes.length, 0, 0, 0, 0⟩
    have hpart := countP_classes_partition outcomes
    refine ⟨?_, ?_, ?_, ?_, ?_, ?_⟩ <;>
      simp [CheckerManager.runAllChecks, h] <;> omega
  · decide

/-- C3: when the primary scanner fails, runAxeScan returns the legacy
scanner result tagged usedLegacyFallback with its violations array
defined as the legacy findings (possibly empty) rather than throwing;
when the legacy scanner also fails, runAxeScan returns (never throws)
the empty result shape tagged failedFallback carrying the legacy error
message. -/
theorem testEngine_runAxeScan_fallback :
    (∀ (modern : Except String (Option AxeResult)) (raw : RawAxe)
       (pageName : String) (now : Nat),
      TestEngine.primaryScanFails modern = true →
      TestEngine.runAxeScan modern (.ok raw) pageName now =
        { violations := raw.violations, passes := raw.passes,
          incomplete := raw.incomplete, inapplicable := raw.inapplicable,
          url := pageName, pageName := pageName, timestamp := now,
          error := none, usedLegacyFallback := true, failedFallback := false }) ∧
    (∀ (modern : Except String (Option AxeResult)) (legacyError : String)
       (pageName : String) (now : Nat),
      TestEngine.primaryScanFails modern = true →
      TestEngine.runAxeScan modern (.error legacyError) pageName now =
        { violations := [], passes := [], incomplete := [], inapplicable := [],
          url := pageName, pageName := pageName, timestamp := now,
          error := some legacyError, usedLegacyFallback := false,
          failedFallback := true }) := by
  constructor
  · intro modern raw pageName now hfail
    match modern with
    | .error e => rfl
    | .ok none => rfl
    | .ok (some r) =>
      have : jsTruthy r.error = true := by
        simpa [TestEngine.primaryScanFails] using hfail
      simp [TestEngine.runAxeScan, LegacyScanner.scanPage, this]
  · intro modern legacyError pageName now hfail
    match modern with
    | .error e => rfl
    | .ok none => rfl
    | .ok (some r) =>
      have : jsTruthy r.error = true := by
        simpa [TestEngine.primaryScanFails] using hfail
      simp [TestEngine.runAxeScan, LegacyScanner.scanPage, this]

/-- C3 witness: a primary scanner returning no data falls back to a
legacy scan with one violation, and when the legacy evaluation also
throws the empty failedFallback shape is returned. -/
theorem testEngine_runAxeScan_fallback_witness :
    TestEngine.primaryScanFails (.ok none) = true ∧
    TestEngine.runAxeScan (.ok none) (.ok ⟨["color-contrast"], [], [], []⟩) "home" 7 =
      { violations := ["color-contrast"], passes := [], incomplete := [],
        inapplicable := [], url := "home", pageName := "home", timestamp := 7,
        error := none, usedLegacyFallback := true, failedFallback := false } ∧
    TestEngine.runAxeScan (.ok none) (.error "axe injection failed") "home" 7 =
      { violations := [], passes := [], incomplete := [], inapplicable := [],
        url := "home", pageName := "home", timestamp := 7,
        error := some "axe injection failed", usedLegacyFallback := false,
        failedFallback := true } :=
  ⟨by decide,
   testEngine_runAxeScan_fallback.1 (.ok none) ⟨["color-contrast"], [], [], []⟩
     "home" 7 (by decide),
   testEngine_runAxeScan_fallback.2 (.ok none) "axe injection failed" "home" 7
     (by decide)⟩

/-- C5: withTimeout settles with exactly the operation outcome when the
operation settles before the duration elapses; otherwise it rejects
with the timeout error, not with the operation own later outcome; and
the losing operation is returned unchanged, never cancelled. -/
theorem asyncUtils_withTimeout_race :
    (∀ (α : Type) (op : AsyncUtils.AsyncOp α) (t : Nat) (msg : String),
      op.settleTime < t → (AsyncUtils.withTimeout op t msg).1 = op.outcome) ∧
    (∀ (α : Type) (op : AsyncUtils.AsyncOp α) (t : Nat) (msg : String),
      t ≤ op.settleTime → (AsyncUtils.withTimeout op t msg).1 = .error msg) ∧
    (∀ (α : Type) (op : AsyncUtils.AsyncOp α) (t : Nat) (msg : String),
      (AsyncUtils.withTimeout op t msg).2 = op) := by
  refine ⟨fun α op t msg h => ?_, fun α op t msg h => ?_, fun α op t msg => rfl⟩
  · simp [AsyncUtils.withTimeout, h]
  · simp [AsyncUtils.withTimeout, Nat.not_lt.mpr h]

/-- C5 witness: an operation settling at 3 under a 10 unit timeout
yields its own value, one settling at 12 yields the timeout error, and
the slow operation record is returned unchanged. -/
theorem asyncUtils_withTimeout_race_witness :
    (3 < 10 ∧
      (AsyncUtils.withTimeout (AsyncUtils.AsyncOp.mk 3 (Except.ok (7 : Nat))) 10
        "timed out").1 = .ok 7) ∧
    (10 ≤ 12 ∧
      (AsyncUtils.withTimeout (AsyncUtils.AsyncOp.mk 12 (Except.ok (7 : Nat))) 10
        "timed out").1 = .error "timed out") ∧
    (AsyncUtils.withTimeout (AsyncUtils.AsyncOp.mk 12 (Except.ok (7 : Nat))) 10
        "timed out").2 = ⟨12, .ok 7⟩ :=
  ⟨⟨by decide, asyncUtils_withTimeout_race.1 Nat ⟨3, .ok 7⟩ 10 "timed out" (by decide)⟩,
   ⟨by decide, asyncUtils_withTimeout_race.2.1 Nat ⟨12, .ok 7⟩ 10 "timed out" (by decide)⟩,
   asyncUtils_withTimeout_race.2.2 Nat ⟨12, .ok 7⟩ 10 "timed out"⟩

/-- C10 counterexample: an executeCheck that throws an error with an
empty message yields success false with a falsy (empty) error, and an
executeCheck returning a result whose error field is the empty string
yields success true with the error field present, so success false and
the error field being set do not coincide under either reading of set;
and the empty-message thrown result is counted as failed, not as an
error, making the failed counter 1 rather than 0. -/
theorem baseChecker_success_error_counterexample :
    (BaseChecker.run (Except.error "")).success = some false ∧
    jsTruthy (BaseChecker.run (Except.error "")).error = false ∧
    (BaseChecker.run (Except.ok ⟨none, some ""⟩)).success = some true ∧
    (BaseChecker.run (Except.ok ⟨none, some ""⟩)).error = some "" ∧
    (CheckerManager.runAllChecks [Except.ok (BaseChecker.run (Except.error ""))]).failed = 1 ∧
    ¬((CheckerManager.runAllChecks [Except.ok (BaseChecker.run (Except.error ""))]).failed = 0) := by
  decide

/-- C10 amended: provided every thrown error carries a non-empty
message, a result of BaseChecker.run has success false exactly when its
error field is truthy, and the aggregated summary over results produced
by BaseChecker.run counts no result as failed: every non-pass is an
error. Without that proviso an empty thrown message lands in the failed
counter. -/
theorem baseChecker_success_iff_error :
    (∀ outcome : Except String CheckResult,
      (∀ m, outcome = .error m → m ≠ "") →
      ((BaseChecker.run outcome).success = some false ↔
        jsTruthy (BaseChecker.run outcome).error = true)) ∧
    (∀ outcomes : List (Except String CheckResult),
      (∀ m, Except.error m ∈ outcomes → m ≠ "") →
      (CheckerManager.runAllChecks
          (outcomes.map (fun ec => Except.ok (BaseChecker.run ec)))).failed = 0) := by
  constructor
  · intro outcome hwf
    match outcome with
    | .ok r =>
      cases hb : jsTruthy r.error <;>
        simp [BaseChecker.run, hb]
    | .error m =>
      have hm : m ≠ "" := hwf m rfl
      simp [BaseChecker.run, jsTruthy, hm]
  · intro outcomes hwf
    have h := runAllChecks_foldl_counts
      (outcomes.map (fun ec => (Except.ok (BaseChecker.run ec) : Except String CheckResult)))
      ⟨(outcomes.map (fun ec =>
          (Except.ok (BaseChecker.run ec) : Except String CheckResult))).length, 0, 0, 0, 0⟩
    simp only [CheckerManager.runAllChecks, h]
    simp only [List.countP_map, Nat.zero_add]
    rw [List.countP_eq_zero]
    intro ec hec
    match ec with
    | .ok r =>
      simp only [Function.comp]
      cases hb : jsTruthy r.error <;>
        simp [CheckerManager.isFailedResult, CheckerManager.runSingleCheck,
          BaseChecker.run, hb]
    | .error m =>
      have hm : m ≠ "" := hwf m hec
      simp [Function.comp, CheckerManager.isFailedResult,
        CheckerManager.runSingleCheck, BaseChecker.run, jsTruthy, hm]

/-- C10 witness: a checker throwing with a non-empty message satisfies
the success-error equivalence, and a page whose two checkers throw and
pass respectively has zero failed checks. -/
theorem baseChecker_success_iff_error_witness :
    ((BaseChecker.run (Except.error "boom")).success = some false ↔
      jsTruthy (BaseChecker.run (Except.error "boom")).error = true) ∧
    (CheckerManager.runAllChecks
        ([Except.error "boom", Except.ok ⟨some true, none⟩].map
          (fun ec => Except.ok (BaseChecker.run ec)))).failed = 0 :=
  ⟨baseChecker_success_iff_error.1 (Except.error "boom")
     (fun m h => by injection h with hm; subst hm; decide),
   baseChecker_success_iff_error.2 [Except.error "boom", Except.ok ⟨some true, none⟩]
     (fun m h => by
       rcases List.mem_cons.mp h with h1 | h1
       · injection h1 with hm; subst hm; decide
       · simp at h1)⟩

/-- Filtering a list by a predicate and by its negation splits its
length. -/
theorem length_filter_add_length_filter_not {α : Type} (l : List α) (p : α → Bool) :
    (l.filter p).length + (l.filter (fun a => !(p a))).length = l.length := by
  induction l with
  | nil => simp
  | cons a t ih =>
    by_cases h : p a <;> simp [List.filter_cons, h] <;> omega

/-- When exactly two required landmark roles are missing, three required
roles occur among the extracted landmark roles, so at least three
landmarks were extracted. -/
theorem three_landmarks_of_two_missing (landmarks : List AccessibilityTreeChecker.Landmark)
    (h : (AccessibilityTreeChecker.requiredLandmarks.filter
        (fun role => !((landmarks.map (fun l => l.role)).contains role))).length = 2) :
    3 ≤ landmarks.length := by
  set roles : List String := landmarks.map (fun l => l.role) with hroles
  set p : String → Bool := fun role => roles.contains role with hp
  have hsplit := length_filter_add_length_filter_not
    AccessibilityTreeChecker.requiredLandmarks p
  have hlen5 : AccessibilityTreeChecker.requiredLandmarks.length = 5 := by decide
  have h2 : (AccessibilityTreeChecker.requiredLandmarks.filter
      (fun a => !(p a))).length = 2 := h
  have hpres : (AccessibilityTreeChecker.requiredLandmarks.filter p).length = 3 := by
    omega
  have hnd : (AccessibilityTreeChecker.requiredLandmarks.filter p).Nodup :=
    List.Nodup.filter p (by decide)
  have hsub : ∀ x ∈ AccessibilityTreeChecker.requiredLandmarks.filter p, x ∈ roles := by
    intro x hx
    have := List.of_mem_filter hx
    simpa [hp] using this
  have hcard : (AccessibilityTreeChecker.requiredLandmarks.filter p).toFinset.card = 3 := by
    rw [List.toFinset_card_of_nodup hnd]; exact hpres
  have hsubF : (AccessibilityTreeChecker.requiredLandmarks.filter p).toFinset ⊆
      roles.toFinset := by
    intro x hx
    rw [List.mem_toFinset] at hx
    rw [List.mem_toFinset]
    exact hsub x hx
  have h3 : 3 ≤ roles.toFinset.card := by
    rw [← hcard]; exact Finset.card_le_card hsubF
  have h4 : roles.toFinset.card ≤ roles.length := List.toFinset_card_le roles
  have h5 : roles.length = landmarks.length := by
    rw [hroles]; exact List.length_map landmarks _
  omega

/-- C8 counterexample: a page missing exactly two required landmarks and
raising no landmark issue scores 70, not 60, because the three required
landmarks that are present trigger the bonus for having at least three
landmarks. -/
theorem accessibilityTree_landmark_score_counterexample :
    (AccessibilityTreeChecker.checkLandmarks demoLandmarkPage).missing.length = 2 ∧
    (AccessibilityTreeChecker.checkLandmarks demoLandmarkPage).issues = [] ∧
    (AccessibilityTreeChecker.checkLandmarks demoLandmarkPage).score = 70 ∧
    ¬((AccessibilityTreeChecker.checkLandmarks demoLandmarkPage).score = 60) := by
  decide

/-- C8 amended: the landmark score is 100 minus 20 per missing required
landmark minus 10 per landmark issue plus a bonus of 10 when at least 3
landmarks are present, clamped to the range 0 to 100; a page with all
five required landmarks present, no issues and at least 3 landmarks
scores 100; and a page missing exactly two required landmarks with no
issues necessarily has at least three landmarks and scores 70, not 60,
since the bonus always applies in that situation. -/
theorem accessibilityTree_landmark_score :
    (∀ (landmarks : List AccessibilityTreeChecker.Landmark)
       (missing issues : List String),
      AccessibilityTreeChecker.calculateLandmarkScore landmarks missing issues =
        max 0 (min 100 (100 - 20 * (missing.length : Int) - 10 * (issues.length : Int) +
          (if 3 ≤ landmarks.length then 10 else 0)))) ∧
    (∀ tree : AccessibilityTreeChecker.AxNode,
      (AccessibilityTreeChecker.checkLandmarks tree).missing = [] →
      (AccessibilityTreeChecker.checkLandmarks tree).issues = [] →
      3 ≤ (AccessibilityTreeChecker.checkLandmarks tree).present.length →
      (AccessibilityTreeChecker.checkLandmarks tree).score = 100) ∧
    (∀ tree : AccessibilityTreeChecker.AxNode,
      (AccessibilityTreeChecker.checkLandmarks tree).missing.length = 2 →
      (AccessibilityTreeChecker.checkLandmarks tree).issues = [] →
      3 ≤ (AccessibilityTreeChecker.checkLandmarks tree).present.length ∧
      (AccessibilityTreeChecker.checkLandmarks tree).score = 70) := by
  have hscore : ∀ tree : AccessibilityTreeChecker.AxNode,
      (AccessibilityTreeChecker.checkLandmarks tree).score =
        AccessibilityTreeChecker.calculateLandmarkScore
          (AccessibilityTreeChecker.checkLandmarks tree).present
          (AccessibilityTreeChecker.checkLandmarks tree).missing
          (AccessibilityTreeChecker.checkLandmarks tree).issues := fun _ => rfl
  have hval : ∀ (landmarks : List AccessibilityTreeChecker.Landmark)
      (missing issues : List String), 3 ≤ landmarks.length →
      AccessibilityTreeChecker.calculateLandmarkScore landmarks missing issues =
        max 0 (min 100 (110 - 20 * (missing.length : Int) -
          10 * (issues.length : Int))) := by
    intro landmarks missing issues h3
    unfold AccessibilityTreeChecker.calculateLandmarkScore
    simp only [h3, if_true]
    ring_nf
  refine ⟨?_, ?_, ?_⟩
  · intro landmarks missing issues
    unfold AccessibilityTreeChecker.calculateLandmarkScore
    by_cases h : 3 ≤ landmarks.length <;> simp [h]
  · intro tree hmiss hiss hpres
    rw [hscore, hmiss, hiss, hval _ _ _ hpres]
    decide
  · intro tree hmiss hiss
    have hpres : 3 ≤ (AccessibilityTreeChecker.checkLandmarks tree).present.length :=
      three_landmarks_of_two_missing (AccessibilityTreeChecker.extractLandmarks tree) hmiss
    refine ⟨hpres, ?_⟩
    rw [hscore, hiss, hval _ _ _ hpres, hmiss]
    decide

/-- C8 witness: the five-landmark page scores 100 and the demo page
missing two required landmarks scores 70. -/
theorem accessibilityTree_landmark_score_witness :
    (AccessibilityTreeChecker.checkLandmarks fullLandmarkPage).score = 100 ∧
    (AccessibilityTreeChecker.checkLandmarks demoLandmarkPage).score = 70 :=
  ⟨accessibilityTree_landmark_score.2.1 fullLandmarkPage (by decide) (by decide) (by decide),
   (accessibilityTree_landmark_score.2.2 demoLandmarkPage (by decide) (by decide)).2⟩

/-- A bound is below a left fold of Nat.max exactly when it is below the
seed or below some element. -/
theorem le_foldl_max_iff (l : List Nat) :
    ∀ (a c : Nat), c ≤ l.foldl Nat.max a ↔ c ≤ a ∨ ∃ x ∈ l, c ≤ x := by
  induction l with
  | nil => intro a c; simp
  | cons x xs ih =>
    intro a c
    rw [List.foldl_cons, ih]
    constructor
    · rintro (h | h)
      · rcases le_max_iff.mp h with h1 | h1
        · exact Or.inl h1
        · exact Or.inr ⟨x, by simp, h1⟩
      · rcases h with ⟨y, hy, hcy⟩
        exact Or.inr ⟨y, by simp [hy], hcy⟩
    · rintro (h | ⟨y, hy, hcy⟩)
      · exact Or.inl (le_max_iff.mpr (Or.inl h))
      · rcases List.mem_cons.mp hy with rfl | hy2
        · exact Or.inl (le_max_iff.mpr (Or.inr hcy))
        · exact Or.inr ⟨y, hy2, hcy⟩

/-- C9: overflow is detected exactly when a measured scroll dimension
exceeds the matching viewport dimension by more than the 10 pixel
tolerance; the zoom state is reset afterwards on the success path and
on the error path alike; for a run whose zoom tests all succeeded, the
recommendation reports meetsWCAG exactly when some tested level of at
least 200 percent showed neither overflow nor layout breakage, that is,
when the highest clean level is at least 2.0; and in particular
scrollWidth 1481 against innerWidth 900 at the 200 percent level yields
overflow (not ok) and meetsWCAG false. -/
theorem zoomChecker_wcag_recommendation :
    (∀ (zoomPct : Nat) (ld : ZoomChecker.LayoutData) (off : Nat),
      ((ZoomChecker.testZoomLevel zoomPct (.ok (ld, off))).1.overflow = true ↔
        (ld.windowInnerWidth + 10 < ld.bodyScrollWidth ∨
         ld.windowInnerHeight + 10 < ld.bodyScrollHeight))) ∧
    (∀ (zoomPct : Nat) (measurement : Except String (ZoomChecker.LayoutData × Nat)),
      ZoomChecker.ZoomAction.resetZoom ∈ (ZoomChecker.testZoomLevel zoomPct measurement).2) ∧
    (∀ zoomTests : List ZoomChecker.ZoomTestResult,
      (∀ t ∈ zoomTests, t.success = true) →
      ((ZoomChecker.calculateRecommendedZoom zoomTests).meetsWCAG = true ↔
        ∃ t ∈ zoomTests, t.overflow = false ∧ t.layoutBroken = false ∧
          200 ≤ t.zoomLevel)) ∧
    ((ZoomChecker.testZoomLevel 200 (.ok (⟨1481, 800, 900, 900⟩, 0))).1.overflow = true ∧
      (ZoomChecker.calculateRecommendedZoom demoZoomTests).meetsWCAG = false) := by
  refine ⟨?_, ?_, ?_, by decide⟩
  · intro zoomPct ld off
    simp [ZoomChecker.testZoomLevel]
  · intro zoomPct measurement
    match measurement with
    | .ok (ld, off) => simp [ZoomChecker.testZoomLevel]
    | .error e => simp [ZoomChecker.testZoomLevel]
  · intro zoomTests hsucc
    unfold ZoomChecker.calculateRecommendedZoom
    simp only [decide_eq_true_eq]
    by_cases hemp : ((zoomTests.filter
        (fun t => t.success && !t.overflow && !t.layoutBroken)).map
          (fun t => t.zoomLevel)).isEmpty
    · simp only [hemp, if_true]
      constructor
      · intro h; omega
      · rintro ⟨t, ht, hov, hbr, hz⟩
        have hmem : t ∈ zoomTests.filter
            (fun t => t.success && !t.overflow && !t.layoutBroken) := by
          rw [List.mem_filter]
          exact ⟨ht, by simp [hsucc t ht, hov, hbr]⟩
        have : t.zoomLevel ∈ (zoomTests.filter
            (fun t => t.success && !t.overflow && !t.layoutBroken)).map
              (fun t => t.zoomLevel) := List.mem_map_of_mem _ hmem
        rw [List.isEmpty_iff] at hemp
        rw [hemp] at this
        cases this
    · rw [Bool.not_eq_true] at hemp
      simp only [hemp, Bool.false_eq_true, if_false]
      rw [le_foldl_max_iff]
      constructor
      · rintro (h | ⟨x, hx, hcx⟩)
        · omega
        · rcases List.mem_map.mp hx with ⟨t, ht, rfl⟩
          rcases List.mem_filter.mp ht with ⟨htm, hcond⟩
          simp only [Bool.and_eq_true, Bool.not_eq_true'] at hcond
          exact ⟨t, htm, hcond.1.2, hcond.2, hcx⟩
      · rintro ⟨t, ht, hov, hbr, hz⟩
        refine Or.inr ⟨t.zoomLevel, ?_, hz⟩
        refine List.mem_map_of_mem _ ?_
        rw [List.mem_filter]
        exact ⟨ht, by simp [hsucc t ht, hov, hbr]⟩

/-- C9 witness: the four-level demo run has all tests successful and its
meetsWCAG flag agrees with the existence of a clean level of at least
200 percent. -/
theorem zoomChecker_wcag_recommendation_witness :
    (∀ t ∈ demoZoomTests, t.success = true) ∧
    ((ZoomChecker.calculateRecommendedZoom demoZoomTests).meetsWCAG = true ↔
      ∃ t ∈ demoZoomTests, t.overflow = false ∧ t.layoutBroken = false ∧
        200 ≤ t.zoomLevel) :=
  ⟨by decide, zoomChecker_wcag_recommendation.2.2.1 demoZoomTests (by decide)⟩

/-- Behaviour of the retry loop run from any attempt: k retryable
failures followed by a success consume k plus one invocations and apply
the backoff delays of attempts attempt to attempt plus k minus one. -/
theorem retryAux_succeeds {α : Type} (f : Nat → Except String α)
    (o : AsyncUtils.RetryOptions) (err : Nat → String) (v : α) :
    ∀ (k fuel attempt calls : Nat) (delays : List Nat) (lastError : Option String),
    (∀ n, attempt ≤ n → n < attempt + k → f n = .error (err n)) →
    (∀ n, attempt ≤ n → n < attempt + k → o.retryCondition (err n) = true) →
    f (attempt + k) = .ok v → k < fuel →
    AsyncUtils.retryAux f o fuel attempt calls delays lastError =
      ⟨.ok v, calls + k + 1,
       delays ++ (List.range k).map (fun j => AsyncUtils.backoffDelay o (attempt + j))⟩ := by
  intro k
  induction k with
  | zero =>
    intro fuel attempt calls delays lastError hf hc hok hfuel
    obtain ⟨fu, rfl⟩ : ∃ fu, fuel = fu + 1 := ⟨fuel - 1, by omega⟩
    have hfa : f attempt = .ok v := by simpa using hok
    simp [AsyncUtils.retryAux, hfa]
  | succ k ih =>
    intro fuel attempt calls delays lastError hf hc hok hfuel
    obtain ⟨fu, rfl⟩ : ∃ fu, fuel = fu + 1 := ⟨fuel - 1, by omega⟩
    obtain ⟨fu2, rfl⟩ : ∃ fu2, fu = fu2 + 1 := ⟨fu - 1, by omega⟩
    have hfa : f attempt = .error (err attempt) := hf attempt le_rfl (by omega)
    have hca : o.retryCondition (err attempt) = true := hc attempt le_rfl (by omega)
    rw [AsyncUtils.retryAux, hfa]
    simp only [hca, Bool.not_true, Bool.false_eq_true, if_false, Nat.succ_ne_zero,
      beq_iff_eq, ite_false]
    rw [ih (fu2 + 1) (attempt + 1) (calls + 1)
      (delays ++ [AsyncUtils.backoffDelay o attempt]) (some (err attempt))
      (fun n h1 h2 => hf n (by omega) (by omega))
      (fun n h1 h2 => hc n (by omega) (by omega))
      (by rw [show attempt + 1 + k = attempt + (k + 1) from by omega]; exact hok)
      (by omega)]
    simp only [AsyncUtils.RetryTrace.mk.injEq, true_and]
    refine ⟨by omega, ?_⟩
    rw [List.append_assoc]
    congr 1
    rw [List.range_succ_eq_map, List.map_cons, List.map_map, List.singleton_append]
    have hfun : ((fun j => AsyncUtils.backoffDelay o (attempt + j)) ∘ Nat.succ) =
        fun j => AsyncUtils.backoffDelay o (attempt + 1 + j) := by
      funext j
      show AsyncUtils.backoffDelay o (attempt + (j + 1)) =
        AsyncUtils.backoffDelay o (attempt + 1 + j)
      rw [show attempt + (j + 1) = attempt + 1 + j from by omega]
    simp [hfun]

/-- The retry loop applies strictly fewer delays than it has loop
iterations left. -/
theorem retryAux_delays_le {α : Type} (f : Nat → Except String α)
    (o : AsyncUtils.RetryOptions) :
    ∀ (fuel attempt calls : Nat) (delays : List Nat) (lastError : Option String),
    (AsyncUtils.retryAux f o fuel attempt calls delays lastError).delays.length ≤
      delays.length + (fuel - 1) := by
  intro fuel
  induction fuel with
  | zero => intro attempt calls delays lastError; simp [AsyncUtils.retryAux]
  | succ fu ih =>
    intro attempt calls delays lastError
    rw [AsyncUtils.retryAux]
    match hfa : f attempt with
    | .ok v => simp
    | .error e =>
      by_cases hc : o.retryCondition e
      · by_cases hfu : fu = 0
        · simp [hc, hfu]
        · have hne : (fu == 0) = false := by simpa using hfu
          simp only [hc, Bool.not_true, Bool.false_eq_true, if_false, hne, ite_false]
          have := ih (attempt + 1) (calls + 1)
            (delays ++ [AsyncUtils.backoffDelay o attempt]) (some e)
          simp only [List.length_append, List.length_singleton] at this
          omega
      · simp [hc]

/-- C4: an operation failing k times with retryable errors and then
succeeding, under maxAttempts greater than k, resolves with the success
value after exactly k plus one invocations, having waited before retry
n plus one exactly min(baseDelay times backoffFactor to the n minus
one, maxDelay); an operation whose first error fails the retry
condition is invoked exactly once and its error is rethrown unmodified
with no delay; and no run ever applies a delay after its final attempt:
the number of delays stays below maxAttempts. -/
theorem asyncUtils_retry_spec :
    (∀ (α : Type) (o : AsyncUtils.RetryOptions) (f : Nat → Except String α)
       (err : Nat → String) (v : α) (k : Nat),
      (∀ n, 1 ≤ n → n ≤ k → f n = .error (err n)) →
      (∀ n, 1 ≤ n → n ≤ k → o.retryCondition (err n) = true) →
      f (k + 1) = .ok v → k < o.maxAttempts →
      AsyncUtils.retry f o =
        ⟨.ok v, k + 1,
         (List.range k).map (fun j => AsyncUtils.backoffDelay o (j + 1))⟩) ∧
    (∀ (α : Type) (o : AsyncUtils.RetryOptions) (f : Nat → Except String α)
       (e : String),
      f 1 = .error e → o.retryCondition e = false → 1 ≤ o.maxAttempts →
      AsyncUtils.retry f o = ⟨.error (some e), 1, []⟩) ∧
    (∀ (α : Type) (o : AsyncUtils.RetryOptions) (f : Nat → Except String α),
      (AsyncUtils.retry f o).delays.length ≤ o.maxAttempts - 1) := by
  refine ⟨?_, ?_, ?_⟩
  · intro α o f err v k hf hc hok hmax
    unfold AsyncUtils.retry
    rw [retryAux_succeeds f o err v k o.maxAttempts 1 0 [] none
      (fun n h1 h2 => hf n h1 (by omega))
      (fun n h1 h2 => hc n h1 (by omega))
      (by rw [show (1 : Nat) + k = k + 1 from by omega]; exact hok) hmax]
    simp only [AsyncUtils.RetryTrace.mk.injEq, List.nil_append, true_and]
    refine ⟨by omega, ?_⟩
    apply List.map_congr_left
    intro j hj
    rw [show (1 : Nat) + j = j + 1 from by omega]
  · intro α o f e hf1 hcond hmax
    obtain ⟨m, hm⟩ : ∃ m, o.maxAttempts = m + 1 := ⟨o.maxAttempts - 1, by omega⟩
    unfold AsyncUtils.retry
    rw [hm, AsyncUtils.retryAux, hf1]
    simp [hcond]
  · intro α o f
    have := retryAux_delays_le f o o.maxAttempts 1 0 [] none
    simpa using this

/-- C4 witness: the flaky operation failing twice then succeeding, under
the default options (3 attempts, base delay 1000, factor 2, cap 10000),
returns 42 after exactly 3 invocations with delays 1000 and 2000; a
rejected retry condition stops after one invocation; and the delay
count stays below the attempt count. -/
theorem asyncUtils_retry_spec_witness :
    AsyncUtils.retry demoFlaky {} = ⟨.ok 42, 3, [1000, 2000]⟩ ∧
    AsyncUtils.retry (fun _ => (.error "fatal" : Except String Nat))
        { retryCondition := fun _ => false } = ⟨.error (some "fatal"), 1, []⟩ ∧
    (AsyncUtils.retry demoFlaky {}).delays.length ≤ 2 := by
  refine ⟨?_, ?_, ?_⟩
  · have h := asyncUtils_retry_spec.1 Nat {} demoFlaky (fun _ => "transient") 42 2
      (fun n h1 h2 => by
        interval_cases n <;> rfl)
      (fun n h1 h2 => rfl)
      (by rfl) (by decide)
    rw [h]
    decide
  · exact asyncUtils_retry_spec.2.1 Nat { retryCondition := fun _ => false }
      (fun _ => (.error "fatal" : Except String Nat)) "fatal" rfl rfl (by decide)
  · have h := asyncUtils_retry_spec.2.2 Nat {} demoFlaky
    simpa using h

/-- C6 counterexample: in the 2-page run where page A scans cleanly and
page B navigation throws, with continueOnError true, the errors list
holds two records for page B (phases page_processing and page_scan),
not exactly one. -/
theorem testEngine_runTestSuite_counterexample :
    (TestEngine.runTestSuite (.ok ()) [pageA, pageB] true).state.errors.length = 2 ∧
    ¬((TestEngine.runTestSuite (.ok ()) [pageA, pageB] true).state.errors.length = 1) := by
  decide

/-- C6 amended: runTestSuite always returns a result whose success flag
is true exactly when the errors list is empty, in every phase outcome;
and in the 2-page run where page A scans cleanly and page B navigation
throws, with continueOnError true, the result holds exactly one
rule-engine result (page A), exactly two error records for page B (one
with phase page_processing from processPage and one with phase
page_scan from the scanning loop, both carrying the navigation error),
and success is false. -/
theorem testEngine_runTestSuite_result :
    (∀ (setup : Except String Unit) (pages : List TestEngine.PageSpec)
       (continueOnError : Bool),
      (TestEngine.runTestSuite setup pages continueOnError).success =
        (TestEngine.runTestSuite setup pages continueOnError).state.errors.isEmpty) ∧
    ((TestEngine.runTestSuite (.ok ()) [pageA, pageB] true).state.axeResults.length = 1 ∧
     (TestEngine.runTestSuite (.ok ()) [pageA, pageB] true).state.errors =
       [⟨"page_processing", "click timeout"⟩, ⟨"page_scan", "click timeout"⟩] ∧
     (TestEngine.runTestSuite (.ok ()) [pageA, pageB] true).success = false) := by
  constructor
  · intro setup pages continueOnError
    match setup with
    | .error e => rfl
    | .ok _ =>
      unfold TestEngine.runTestSuite
      match h : TestEngine.scanningPhaseRun continueOnError pages TestEngine.initTR with
      | (st, none) => rfl
      | (st, some e) => simp
  · decide

/-- The state after one page of the scanning loop gains one axe result
and one extra result when the page navigation succeeded, and none
otherwise. -/
theorem foldEvents_scanPage (st : TestEngine.TRState) (p : TestEngine.PageSpec) :
    (TestEngine.foldEvents st (TestEngine.scanPageEvents p)).axeResults.length =
      st.axeResults.length + (if TestEngine.isNavOk p then 1 else 0) ∧
    (TestEngine.foldEvents st (TestEngine.scanPageEvents p)).extraResults.length =
      st.extraResults.length + (if TestEngine.isNavOk p then 1 else 0) := by
  match hn : p.navOutcome with
  | .ok _ =>
    have : TestEngine.isNavOk p = true := by simp [TestEngine.isNavOk, hn]
    simp [TestEngine.scanPageEvents, TestEngine.processPageEvents, hn, this,
      TestEngine.foldEvents, TestEngine.applyEvent]
  | .error e =>
    have : TestEngine.isNavOk p = false := by simp [TestEngine.isNavOk, hn]
    match hs : p.navScreenshot with
    | some _ =>
      simp [TestEngine.scanPageEvents, TestEngine.processPageEvents, hn, hs, this,
        TestEngine.foldEvents, TestEngine.applyEvent]
    | none =>
      simp [TestEngine.scanPageEvents, TestEngine.processPageEvents, hn, hs, this,
        TestEngine.foldEvents, TestEngine.applyEvent]

/-- Folding the events of a continue-on-error scanning run adds to both
result lists exactly the number of pages whose navigation succeeded. -/
theorem foldEvents_runEvents (pages : List TestEngine.PageSpec) :
    ∀ st : TestEngine.TRState,
    (TestEngine.foldEvents st (TestEngine.runEvents pages)).axeResults.length =
      st.axeResults.length + pages.countP TestEngine.isNavOk ∧
    (TestEngine.foldEvents st (TestEngine.runEvents pages)).extraResults.length =
      st.extraResults.length + pages.countP TestEngine.isNavOk := by
  induction pages with
  | nil => intro st; simp [TestEngine.runEvents, TestEngine.foldEvents]
  | cons p ps ih =>
    intro st
    have hsplit : TestEngine.runEvents (p :: ps) =
        TestEngine.scanPageEvents p ++ TestEngine.runEvents ps := by
      simp [TestEngine.runEvents]
    rw [hsplit, TestEngine.foldEvents, List.foldl_append]
    have h1 := foldEvents_scanPage st p
    have h2 := ih (TestEngine.foldEvents st (TestEngine.scanPageEvents p))
    rw [List.countP_cons]
    unfold TestEngine.foldEvents at h1 h2
    constructor
    · rw [h2.1, h1.1]
      by_cases h : TestEngine.isNavOk p <;> simp [h] <;> omega
    · rw [h2.2, h1.2]
      by_cases h : TestEngine.isNavOk p <;> simp [h] <;> omega

/-- The initial state heads every state trace. -/
theorem self_mem_statesFrom (st : TestEngine.TRState) (es : List TestEngine.EngineEvent) :
    st ∈ TestEngine.statesFrom st es := by
  match es with
  | [] => simp [TestEngine.statesFrom]
  | e :: rest => simp [TestEngine.statesFrom]

/-- Membership in the state trace of concatenated event lists splits at
the fold of the first part. -/
theorem mem_statesFrom_append (l1 : List TestEngine.EngineEvent) :
    ∀ (l2 : List TestEngine.EngineEvent) (st s : TestEngine.TRState),
    s ∈ TestEngine.statesFrom st (l1 ++ l2) ↔
      s ∈ TestEngine.statesFrom st l1 ∨
      s ∈ TestEngine.statesFrom (TestEngine.foldEvents st l1) l2 := by
  induction l1 with
  | nil =>
    intro l2 st s
    constructor
    · intro h
      exact Or.inr (by simpa [TestEngine.foldEvents] using h)
    · rintro (h | h)
      · rcases by simpa [TestEngine.statesFrom] using h with rfl
        exact self_mem_statesFrom _ _
      · simpa [TestEngine.foldEvents] using h
  | cons e es ih =>
    intro l2 st s
    have hfold : TestEngine.foldEvents st (e :: es) =
        TestEngine.foldEvents (TestEngine.applyEvent st e) es := rfl
    constructor
    · intro h
      rcases by simpa [TestEngine.statesFrom] using h with rfl | h2
      · exact Or.inl (by simp [TestEngine.statesFrom])
      · rcases (ih l2 (TestEngine.applyEvent st e) s).mp h2 with h3 | h3
        · exact Or.inl (by simp [TestEngine.statesFrom, h3])
        · rw [hfold]
          exact Or.inr h3
    · rintro (h | h)
      · rcases by simpa [TestEngine.statesFrom] using h with rfl | h2
        · simp [TestEngine.statesFrom]
        · have := (ih l2 (TestEngine.applyEvent st e) s).mpr (Or.inl h2)
          simp [TestEngine.statesFrom, this]
      · rw [hfold] at h
        have := (ih l2 (TestEngine.applyEvent st e) s).mpr (Or.inr h)
        simp [TestEngine.statesFrom, this]

/-- During one page of the scanning loop, starting from balanced result
lists, the extra list never exceeds the axe list and the axe list leads
by at most one. -/
theorem statesFrom_scanPage_bound (p : TestEngine.PageSpec) (st : TestEngine.TRState)
    (hbal : st.axeResults.length = st.extraResults.length) :
    ∀ s ∈ TestEngine.statesFrom st (TestEngine.scanPageEvents p),
      s.extraResults.length ≤ s.axeResults.length ∧
      s.axeResults.length ≤ s.extraResults.length + 1 := by
  intro s hs
  match hn : p.navOutcome with
  | .ok _ =>
    simp only [TestEngine.scanPageEvents, TestEngine.processPageEvents, hn,
      TestEngine.statesFrom, TestEngine.applyEvent, List.mem_cons,
      List.mem_singleton, List.not_mem_nil, or_false] at hs
    rcases hs with rfl | rfl | rfl
    · omega
    · simp; omega
    · simp; omega
  | .error e =>
    match hshot : p.navScreenshot with
    | some _ =>
      simp only [TestEngine.scanPageEvents, TestEngine.processPageEvents, hn, hshot,
        TestEngine.statesFrom, TestEngine.applyEvent, List.cons_append, List.nil_append,
        List.mem_cons, List.mem_singleton, List.not_mem_nil, or_false] at hs
      rcases hs with rfl | rfl | rfl | rfl
      · omega
      · simp; omega
      · simp; omega
      · simp; omega
    | none =>
      simp only [TestEngine.scanPageEvents, TestEngine.processPageEvents, hn, hshot,
        TestEngine.statesFrom, TestEngine.applyEvent, List.cons_append, List.nil_append,
        List.mem_cons, List.mem_singleton, List.not_mem_nil, or_false] at hs
      rcases hs with rfl | rfl | rfl
      · omega
      · simp; omega
      · simp; omega

/-- Throughout a whole continue-on-error scanning run starting from
balanced result lists, the extra list never exceeds the axe list and
the axe list leads by at most one. -/
theorem statesFrom_runEvents_bound (pages : List TestEngine.PageSpec) :
    ∀ (st : TestEngine.TRState),
    st.axeResults.length = st.extraResults.length →
    ∀ s ∈ TestEngine.statesFrom st (TestEngine.runEvents pages),
      s.extraResults.length ≤ s.axeResults.length ∧
      s.axeResults.length ≤ s.extraResults.length + 1 := by
  induction pages with
  | nil =>
    intro st hbal s hs
    rcases by simpa [TestEngine.runEvents, TestEngine.statesFrom] using hs with rfl
    omega
  | cons p ps ih =>
    intro st hbal s hs
    have hsplit : TestEngine.runEvents (p :: ps) =
        TestEngine.scanPageEvents p ++ TestEngine.runEvents ps := by
      simp [TestEngine.runEvents]
    rw [hsplit] at hs
    rcases (mem_statesFrom_append _ _ _ _).mp hs with h | h
    · exact statesFrom_scanPage_bound p st hbal s h
    · have h1 := foldEvents_scanPage st p
      have hbal2 : (TestEngine.foldEvents st (TestEngine.scanPageEvents p)).axeResults.length =
          (TestEngine.foldEvents st (TestEngine.scanPageEvents p)).extraResults.length := by
        rw [h1.1, h1.2]; omega
      exact ih _ hbal2 s h

/-- C7 counterexample: already while processing a single cleanly
scanning page, the trace passes through a state in which the axe result
list has one entry and the extra check list none, so the two lists do
not have equal length at every point of the run. -/
theorem testEngine_resultLists_counterexample :
    (TestEngine.scanTrace [pageA]).any
      (fun s => !(s.axeResults.length == s.extraResults.length)) = true := by
  decide

/-- C7 amended: at every point of a sequential continue-on-error run
the extra check list never exceeds the rule engine list and the rule
engine list leads by at most one entry (the two push calls of a page
straddle an await, so the counts differ by one in between); after each
page completes, and at the end of the run, both lists have exactly one
entry per page that successfully reached the scan step; and a page
whose navigation fails contributes no entry to either list, only error
records. -/
theorem testEngine_resultLists_balance :
    (∀ (pages : List TestEngine.PageSpec) (s : TestEngine.TRState),
      s ∈ TestEngine.scanTrace pages →
      s.extraResults.length ≤ s.axeResults.length ∧
      s.axeResults.length ≤ s.extraResults.length + 1) ∧
    (∀ (pages : List TestEngine.PageSpec) (k : Nat),
      (TestEngine.foldEvents TestEngine.initTR
          (TestEngine.runEvents (pages.take k))).axeResults.length =
        (pages.take k).countP TestEngine.isNavOk ∧
      (TestEngine.foldEvents TestEngine.initTR
          (TestEngine.runEvents (pages.take k))).extraResults.length =
        (pages.take k).countP TestEngine.isNavOk) ∧
    (∀ (p : TestEngine.PageSpec) (e : String),
      p.navOutcome = .error e →
      (TestEngine.scanPageEvents p).countP TestEngine.isPushEvent = 0 ∧
      (TestEngine.scanPageEvents p).countP TestEngine.isErrorEvent = 2) := by
  refine ⟨?_, ?_, ?_⟩
  · intro pages s hs
    exact statesFrom_runEvents_bound pages TestEngine.initTR rfl s hs
  · intro pages k
    have h := foldEvents_runEvents (pages.take k) TestEngine.initTR
    constructor
    · rw [h.1]; simp [TestEngine.initTR]
    · rw [h.2]; simp [TestEngine.initTR]
  · intro p e hn
    match hshot : p.navScreenshot with
    | some _ =>
      simp [TestEngine.scanPageEvents, TestEngine.processPageEvents, hn, hshot,
        TestEngine.isPushEvent, TestEngine.isErrorEvent, List.countP_cons]
    | none =>
      simp [TestEngine.scanPageEvents, TestEngine.processPageEvents, hn, hshot,
        TestEngine.isPushEvent, TestEngine.isErrorEvent, List.countP_cons]

/-- C7 witness: the initial state of a one-page run satisfies the
bounds, the prefix counts match the pages that reached the scan step,
and a navigation-failing page contributes only error records. -/
theorem testEngine_resultLists_balance_witness :
    (TestEngine.initTR.extraResults.length ≤ TestEngine.initTR.axeResults.length ∧
      TestEngine.initTR.axeResults.length ≤ TestEngine.initTR.extraResults.length + 1) ∧
    ((TestEngine.foldEvents TestEngine.initTR
        (TestEngine.runEvents ([pageA, pageB].take 2))).axeResults.length =
      ([pageA, pageB].take 2).countP TestEngine.isNavOk) ∧
    ((TestEngine.scanPageEvents pageB).countP TestEngine.isPushEvent = 0 ∧
      (TestEngine.scanPageEvents pageB).countP TestEngine.isErrorEvent = 2) :=
  ⟨testEngine_resultLists_balance.1 [pageA] TestEngine.initTR
     (self_mem_statesFrom TestEngine.initTR (TestEngine.runEvents [pageA])),
   (testEngine_resultLists_balance.2.1 [pageA, pageB] 2).1,
   testEngine_resultLists_balance.2.2 pageB "click timeout" rfl⟩

namespace AsyncUtils

/-- The earliest remaining settlement time is attained by some in-flight
task. -/
theorem minRemaining_mem {α : Type} :
    ∀ (ex : List (InFlight α)), ex ≠ [] →
    ∃ f ∈ ex, f.remaining = minRemaining ex := by
  intro ex
  induction ex with
  | nil => intro h; cases h rfl
  | cons f rest ih =>
    intro _
    rcases rest with _ | ⟨g, rs⟩
    · exact ⟨f, by simp, by simp [minRemaining]⟩
    · rcases ih (by simp) with ⟨h0, hmem, heq⟩
      by_cases hle : f.remaining ≤ minRemaining (g :: rs)
      · exact ⟨f, by simp, by
          show f.remaining = if f.remaining ≤ minRemaining (g :: rs)
            then f.remaining else minRemaining (g :: rs)
          rw [if_pos hle]⟩
      · refine ⟨h0, by simp [hmem], ?_⟩
        show h0.remaining = if f.remaining ≤ minRemaining (g :: rs)
          then f.remaining else minRemaining (g :: rs)
        rw [if_neg hle]
        exact heq

/-- Filtering away a present element shortens a list strictly. -/
theorem length_filter_lt_of_mem_not {α : Type} (l : List α) (q : α → Bool) (x : α)
    (hx : x ∈ l) (hqx : q x = false) : (l.filter q).length < l.length := by
  induction l with
  | nil => cases hx
  | cons a t ih =>
    rcases List.mem_cons.mp hx with rfl | hxt
    · rw [List.filter_cons, hqx]
      simp only [Bool.false_eq_true, if_false, List.length_cons]
      have := List.length_filter_le q t
      omega
    · rw [List.filter_cons]
      by_cases ha : q a
      · simp only [ha, if_true, List.length_cons]
        have := ih hxt
        omega
      · simp only [ha, Bool.false_eq_true, if_false, List.length_cons]
        have := ih hxt
        omega

/-- A race never grows the executing set. -/
theorem advanceRace_executing_le {α : Type} (st : CState α) :
    (advanceRace st).executing.length ≤ st.executing.length := by
  unfold advanceRace
  simp only [List.length_map]
  exact List.length_filter_le _ _

/-- A race on a nonempty executing set removes at least one task. -/
theorem advanceRace_executing_lt {α : Type} (st : CState α)
    (h : st.executing ≠ []) :
    (advanceRace st).executing.length < st.executing.length := by
  unfold advanceRace
  simp only [List.length_map]
  rcases minRemaining_mem st.executing h with ⟨f, hf, heq⟩
  exact length_filter_lt_of_mem_not _ _ f hf (by simp [heq])

/-- A race records exactly the new size of the executing set. -/
theorem advanceRace_flightTrace {α : Type} (st : CState α) :
    (advanceRace st).flightTrace =
      st.flightTrace ++ [(advanceRace st).executing.length] := by
  unfold advanceRace
  simp

/-- A race moves settlement pairs from the executing set to the log and
changes nothing else about them. -/
theorem advanceRace_pairs {α : Type} (st : CState α) :
    List.Perm (pairsOf (advanceRace st)) (pairsOf st) := by
  unfold advanceRace pairsOf
  simp only [List.map_map]
  rw [List.append_assoc]
  refine List.Perm.append_left st.log ?_
  have hcomp : ((fun f : InFlight α => (f.idx, f.outcome)) ∘
      (fun f => { f with remaining := f.remaining - minRemaining st.executing })) =
      (fun f : InFlight α => (f.idx, f.outcome)) := rfl
  rw [hcomp, ← List.map_append]
  exact List.Perm.map _ (List.filter_append_perm _ st.executing)

/-- Starting a task appends its settlement pair. -/
theorem startTask_pairs {α : Type} (i : Nat) (t : ATask α) (st : CState α) :
    pairsOf (startTask i t st) = pairsOf st ++ [(i, t.outcome)] := by
  unfold startTask pairsOf
  simp [List.map_append]

/-- The loop body appends the settlement pair of its task, up to the
reordering done by races. -/
theorem stepTask_pairs {α : Type} (limit i : Nat) (t : ATask α) (st : CState α) :
    List.Perm (pairsOf (stepTask limit i t st)) (pairsOf st ++ [(i, t.outcome)]) := by
  unfold stepTask
  by_cases h : limit ≤ (startTask i t st).executing.length
  · rw [if_pos h]
    exact (advanceRace_pairs _).trans (by rw [startTask_pairs])
  · rw [if_neg h, startTask_pairs]

/-- The whole loop appends the settlement pairs of its tasks in input
order, up to the reordering done by races. -/
theorem runLoop_pairs {α : Type} (limit : Nat) :
    ∀ (ts : List (ATask α)) (i : Nat) (st : CState α),
    List.Perm (pairsOf (runLoop limit i ts st)) (pairsOf st ++ canonical i ts) := by
  intro ts
  induction ts with
  | nil => intro i st; simp [runLoop, canonical]
  | cons t rest ih =>
    intro i st
    rw [runLoop]
    refine (ih (i + 1) (stepTask limit i t st)).trans ?_
    refine (List.Perm.append_right (canonical (i + 1) rest)
      (stepTask_pairs limit i t st)).trans ?_
    rw [List.append_assoc, List.singleton_append]
    exact List.Perm.refl _

/-- Draining with enough fuel empties the executing set while keeping
the settlement pairs. -/
theorem drainFuel_spec {α : Type} :
    ∀ (fuel : Nat) (st : CState α), st.executing.length ≤ fuel →
    (drainFuel fuel st).executing = [] ∧
    List.Perm (pairsOf (drainFuel fuel st)) (pairsOf st) := by
  intro fuel
  induction fuel with
  | zero =>
    intro st h
    have hnil : st.executing = [] := List.length_eq_zero.mp (Nat.le_zero.mp h)
    exact ⟨hnil, List.Perm.refl _⟩
  | succ fu ih =>
    intro st h
    rw [drainFuel]
    by_cases he : st.executing.isEmpty
    · rw [if_pos he]
      exact ⟨List.isEmpty_iff.mp he, List.Perm.refl _⟩
    · rw [if_neg he]
      have hne : st.executing ≠ [] := by
        intro hh
        rw [hh] at he
        exact he rfl
      have hlt := advanceRace_executing_lt st hne
      have hrec := ih (advanceRace st) (by omega)
      exact ⟨hrec.1, hrec.2.trans (advanceRace_pairs st)⟩

/-- Keys in the canonical pair list start at the base index. -/
theorem canonical_key_ge {α : Type} :
    ∀ (ts : List (ATask α)) (i j : Nat) (o : Except String α),
    (j, o) ∈ canonical i ts → i ≤ j := by
  intro ts
  induction ts with
  | nil => intro i j o h; cases h
  | cons t rest ih =>
    intro i j o h
    rcases List.mem_cons.mp h with heq | hmem
    · have := congrArg Prod.fst heq
      simp at this
      omega
    · have := ih (i + 1) j o hmem
      omega

/-- The canonical pair list carries each input index exactly once. -/
theorem canonical_keys_nodup {α : Type} :
    ∀ (ts : List (ATask α)) (i : Nat), ((canonical i ts).map Prod.fst).Nodup := by
  intro ts
  induction ts with
  | nil => intro i; simp [canonical]
  | cons t rest ih =>
    intro i
    rw [canonical, List.map_cons, List.nodup_cons]
    refine ⟨?_, ih (i + 1)⟩
    intro hmem
    rcases List.mem_map.mp hmem with ⟨⟨j, o⟩, hjo, hfst⟩
    have := canonical_key_ge rest (i + 1) j o hjo
    simp at hfst
    omega

/-- The canonical pair list associates index i plus k with the outcome
of the k-th task. -/
theorem canonical_mem_get {α : Type} :
    ∀ (ts : List (ATask α)) (i k : Nat) (h : k < ts.length),
    (i + k, (ts.get ⟨k, h⟩).outcome) ∈ canonical i ts := by
  intro ts
  induction ts with
  | nil => intro i k h; exact absurd h (Nat.not_lt_zero k)
  | cons t rest ih =>
    intro i k h
    match k with
    | 0 => simp [canonical]
    | k + 1 =>
      have hk : k < rest.length := by
        have := h
        simp at this
        omega
      have hmem := ih (i + 1) k hk
      rw [canonical]
      refine List.mem_cons.mpr (Or.inr ?_)
      have heq : i + (k + 1) = (i + 1) + k := by omega
      rw [heq]
      simpa using hmem

/-- Looking an index up in a log with distinct keys yields the outcome
it was logged with. -/
theorem lookupLog_eq {α : Type} :
    ∀ (l : List (Nat × Except String α)) (i : Nat) (o : Except String α),
    (l.map Prod.fst).Nodup → (i, o) ∈ l → lookupLog i l = some o := by
  intro l
  induction l with
  | nil => intro i o _ h; cases h
  | cons p rest ih =>
    intro i o hnd hmem
    obtain ⟨j, q⟩ := p
    rw [List.map_cons, List.nodup_cons] at hnd
    rcases List.mem_cons.mp hmem with heq | hmem2
    · obtain ⟨rfl, rfl⟩ := Prod.mk.injEq i o j q |>.mp heq
      simp [lookupLog]
    · have hij : i ≠ j := by
        intro hh
        subst hh
        exact hnd.1 (List.mem_map.mpr ⟨(i, o), hmem2, rfl⟩)
      rw [lookupLog, if_neg (by simpa using hij)]
      exact ih i o hnd.2 hmem2

/-- One loop iteration keeps the executing set strictly below the limit
and every recorded in-flight size at or below it. -/
theorem stepTask_flight {α : Type} (limit i : Nat) (t : ATask α) (st : CState α)
    (hexec : st.executing.length < limit)
    (htr : ∀ n ∈ st.flightTrace, n ≤ limit) :
    (stepTask limit i t st).executing.length < limit ∧
    ∀ n ∈ (stepTask limit i t st).flightTrace, n ≤ limit := by
  have hlen : (startTask i t st).executing.length = st.executing.length + 1 := by
    simp [startTask]
  have htr2 : ∀ n ∈ (startTask i t st).flightTrace, n ≤ limit := by
    intro n hn
    simp only [startTask, List.mem_append, List.mem_singleton] at hn
    rcases hn with hn | rfl
    · exact htr n hn
    · omega
  unfold stepTask
  by_cases h : limit ≤ (startTask i t st).executing.length
  · rw [if_pos h]
    have hne : (startTask i t st).executing ≠ [] := by
      intro hh
      rw [hh] at hlen
      simp at hlen
    have hlt := advanceRace_executing_lt (startTask i t st) hne
    constructor
    · omega
    · intro n hn
      rw [advanceRace_flightTrace] at hn
      rcases List.mem_append.mp hn with hn2 | hn2
      · exact htr2 n hn2
      · have : n = (advanceRace (startTask i t st)).executing.length := by
          simpa using hn2
        omega
  · rw [if_neg h]
    exact ⟨by omega, htr2⟩

/-- The whole loop keeps the executing set strictly below the limit and
every recorded in-flight size at or below it. -/
theorem runLoop_flight {α : Type} (limit : Nat) :
    ∀ (ts : List (ATask α)) (i : Nat) (st : CState α),
    st.executing.length < limit → (∀ n ∈ st.flightTrace, n ≤ limit) →
    (runLoop limit i ts st).executing.length < limit ∧
    ∀ n ∈ (runLoop limit i ts st).flightTrace, n ≤ limit := by
  intro ts
  induction ts with
  | nil => intro i st h1 h2; exact ⟨h1, h2⟩
  | cons t rest ih =>
    intro i st h1 h2
    rw [runLoop]
    have hstep := stepTask_flight limit i t st h1 h2
    exact ih (i + 1) (stepTask limit i t st) hstep.1 hstep.2

/-- Draining keeps every recorded in-flight size at or below the
limit. -/
theorem drainFuel_flight {α : Type} (limit : Nat) :
    ∀ (fuel : Nat) (st : CState α),
    st.executing.length < limit → (∀ n ∈ st.flightTrace, n ≤ limit) →
    ∀ n ∈ (drainFuel fuel st).flightTrace, n ≤ limit := by
  intro fuel
  induction fuel with
  | zero => intro st h1 h2; exact h2
  | succ fu ih =>
    intro st h1 h2
    rw [drainFuel]
    by_cases he : st.executing.isEmpty
    · rw [if_pos he]
      exact h2
    · rw [if_neg he]
      have hle := advanceRace_executing_le st
      refine ih (advanceRace st) (by omega) ?_
      intro n hn
      rw [advanceRace_flightTrace] at hn
      rcases List.mem_append.mp hn with hn2 | hn2
      · exact h2 n hn2
      · have : n = (advanceRace st).executing.length := by simpa using hn2
        omega

/-- With limit 1 the loop body runs its task to settlement at once. -/
theorem stepTask_one {α : Type} (i : Nat) (t : ATask α) (st : CState α)
    (h : st.executing = []) :
    stepTask 1 i t st =
      { executing := [], log := st.log ++ [(i, t.outcome)],
        events := st.events ++ [CEvent.start i, CEvent.settle i],
        flightTrace := st.flightTrace ++ [1, 0] } := by
  unfold stepTask startTask advanceRace
  simp [h, minRemaining]

/-- With limit 1 the loop produces the strictly sequential event trace
and leaves nothing in flight. -/
theorem runLoop_one {α : Type} :
    ∀ (ts : List (ATask α)) (i : Nat) (st : CState α), st.executing = [] →
    (runLoop 1 i ts st).executing = [] ∧
    (runLoop 1 i ts st).events = st.events ++ seqEvents i ts := by
  intro ts
  induction ts with
  | nil => intro i st h; exact ⟨h, by simp [runLoop, seqEvents]⟩
  | cons t rest ih =>
    intro i st h
    rw [runLoop, stepTask_one i t st h]
    have hrec := ih (i + 1)
      { executing := [], log := st.log ++ [(i, t.outcome)],
        events := st.events ++ [CEvent.start i, CEvent.settle i],
        flightTrace := st.flightTrace ++ [1, 0] } rfl
    refine ⟨hrec.1, ?_⟩
    rw [hrec.2]
    simp [seqEvents]

/-- Settlement events contribute no start events. -/
theorem settle_map_filter_isStart {α : Type} (l : List (InFlight α)) :
    (l.map (fun f => CEvent.settle f.idx)).filter isStart = [] := by
  induction l with
  | nil => rfl
  | cons f rest ih => simp [isStart, ih]

/-- A race adds no start event. -/
theorem advanceRace_starts {α : Type} (st : CState α) :
    (advanceRace st).events.filter isStart = st.events.filter isStart := by
  unfold advanceRace
  simp [List.filter_append, settle_map_filter_isStart]

/-- The loop body adds exactly one start event, for its own task. -/
theorem stepTask_starts {α : Type} (limit i : Nat) (t : ATask α) (st : CState α) :
    (stepTask limit i t st).events.filter isStart =
      st.events.filter isStart ++ [CEvent.start i] := by
  unfold stepTask
  by_cases h : limit ≤ (startTask i t st).executing.length
  · rw [if_pos h, advanceRace_starts]
    simp [startTask, List.filter_append, isStart]
  · rw [if_neg h]
    simp [startTask, List.filter_append, isStart]

/-- The loop starts every task exactly once, in input order. -/
theorem runLoop_starts {α : Type} (limit : Nat) :
    ∀ (ts : List (ATask α)) (i : Nat) (st : CState α),
    (runLoop limit i ts st).events.filter isStart =
      st.events.filter isStart ++ startList i ts.length := by
  intro ts
  induction ts with
  | nil => intro i st; simp [runLoop, startList]
  | cons t rest ih =>
    intro i st
    rw [runLoop, ih (i + 1) (stepTask limit i t st), stepTask_starts]
    simp [startList]

/-- Draining adds no start event. -/
theorem drainFuel_starts {α : Type} :
    ∀ (fuel : Nat) (st : CState α),
    (drainFuel fuel st).events.filter isStart = st.events.filter isStart := by
  intro fuel
  induction fuel with
  | zero => intro st; rfl
  | succ fu ih =>
    intro st
    rw [drainFuel]
    by_cases he : st.executing.isEmpty
    · rw [if_pos he]
    · rw [if_neg he, ih, advanceRace_starts]

/-- The final state has emptied the executing set and its log is a
permutation of the canonical settlement pairs. -/
theorem finalState_log {α : Type} (tasks : List (ATask α)) (limit : Nat) :
    (finalState tasks limit).executing = [] ∧
    List.Perm (finalState tasks limit).log (canonical 0 tasks) := by
  have hrun := runLoop_pairs limit tasks 0 (initState (α := α))
  have hdrain := drainFuel_spec (runLoop limit 0 tasks initState).executing.length
    (runLoop limit 0 tasks initState) (Nat.le_refl _)
  have hempty : (finalState tasks limit).executing = [] := hdrain.1
  refine ⟨hempty, ?_⟩
  have hpairs : List.Perm (pairsOf (finalState tasks limit)) (canonical 0 tasks) := by
    refine (hdrain.2.trans hrun).trans ?_
    show List.Perm (pairsOf initState ++ canonical 0 tasks) (canonical 0 tasks)
    exact List.Perm.refl _
  have hlog : pairsOf (finalState tasks limit) = (finalState tasks limit).log := by
    unfold pairsOf
    rw [hempty]
    simp
  rw [← hlog]
  exact hpairs

/-- The state part of the loop body is untouched by the error path. -/
theorem stepTaskE_fst {α : Type} (limit i : Nat) (t : ATask α) (st : CState α) :
    (stepTaskE limit i t st).1 = stepTask limit i t st := by
  unfold stepTaskE stepTask
  by_cases h : limit ≤ (startTask i t st).executing.length
  · rw [if_pos h, if_pos h]
  · rw [if_neg h, if_neg h]

/-- The settling batch consists of in-flight tasks. -/
theorem settledBatch_subset {α : Type} (st : CState α) :
    ∀ f ∈ settledBatch st, f ∈ st.executing :=
  fun _ hf => List.mem_of_mem_filter hf

/-- A race over tasks that all succeed does not throw. -/
theorem raceThrow_none_of_ok {α : Type} (st : CState α)
    (h : ∀ f ∈ st.executing, okOutcome f.outcome = true) :
    raceThrow st = none := by
  unfold raceThrow
  cases hb : settledBatch st with
  | nil => rfl
  | cons w rest =>
    have hw : w ∈ st.executing := settledBatch_subset st w (by rw [hb]; simp)
    have hok := h w hw
    show (match w.outcome with
      | Except.ok _ => none
      | Except.error e => some e) = none
    cases ho : w.outcome with
    | ok v => rfl
    | error e =>
      rw [ho] at hok
      simp [okOutcome] at hok

/-- Every in-flight task after a race carries the outcome of an
in-flight task before it. -/
theorem advanceRace_exec_outcome {α : Type} (st : CState α) :
    ∀ f ∈ (advanceRace st).executing, ∃ g ∈ st.executing, g.outcome = f.outcome := by
  intro f hf
  replace hf : f ∈ (st.executing.filter
      (fun f => !(f.remaining == minRemaining st.executing))).map
      (fun f => { f with remaining := f.remaining - minRemaining st.executing }) := hf
  rcases List.mem_map.mp hf with ⟨g, hg, rfl⟩
  exact ⟨g, List.mem_of_mem_filter hg, rfl⟩

/-- Every in-flight task after a loop body carries the outcome of a task
in flight before it or of the task just started. -/
theorem stepTask_exec_origin {α : Type} (limit i : Nat) (t : ATask α) (st : CState α) :
    ∀ f ∈ (stepTask limit i t st).executing,
      (∃ g ∈ st.executing, g.outcome = f.outcome) ∨ f.outcome = t.outcome := by
  intro f hf
  unfold stepTask at hf
  by_cases h : limit ≤ (startTask i t st).executing.length
  · rw [if_pos h] at hf
    rcases advanceRace_exec_outcome _ f hf with ⟨g, hg, hge⟩
    have hg2 : g ∈ st.executing ++ [(⟨i, t.latency, t.outcome⟩ : InFlight α)] := hg
    rcases List.mem_append.mp hg2 with h1 | h1
    · exact Or.inl ⟨g, h1, hge⟩
    · have hgt : g = ⟨i, t.latency, t.outcome⟩ := by simpa using h1
      exact Or.inr (by rw [← hge, hgt])
  · rw [if_neg h] at hf
    have hf2 : f ∈ st.executing ++ [(⟨i, t.latency, t.outcome⟩ : InFlight α)] := hf
    rcases List.mem_append.mp hf2 with h1 | h1
    · exact Or.inl ⟨f, h1, rfl⟩
    · have hft : f = ⟨i, t.latency, t.outcome⟩ := by simpa using h1
      exact Or.inr (by rw [hft])

/-- Success of all in-flight outcomes survives a loop body that starts a
succeeding task. -/
theorem stepTask_exec_ok {α : Type} (limit i : Nat) (t : ATask α) (st : CState α)
    (hst : ∀ f ∈ st.executing, okOutcome f.outcome = true)
    (ht : okOutcome t.outcome = true) :
    ∀ f ∈ (stepTask limit i t st).executing, okOutcome f.outcome = true := by
  intro f hf
  rcases stepTask_exec_origin limit i t st f hf with ⟨g, hg, hge⟩ | he
  · rw [← hge]; exact hst g hg
  · rw [he]; exact ht

/-- A loop body over succeeding tasks never throws. -/
theorem stepTaskE_of_ok {α : Type} (limit i : Nat) (t : ATask α) (st : CState α)
    (hst : ∀ f ∈ st.executing, okOutcome f.outcome = true)
    (ht : okOutcome t.outcome = true) :
    stepTaskE limit i t st = (stepTask limit i t st, none) := by
  have hall : ∀ f ∈ (startTask i t st).executing, okOutcome f.outcome = true := by
    intro f hf
    have hf2 : f ∈ st.executing ++ [(⟨i, t.latency, t.outcome⟩ : InFlight α)] := hf
    rcases List.mem_append.mp hf2 with h1 | h1
    · exact hst f h1
    · have hft : f = ⟨i, t.latency, t.outcome⟩ := by simpa using h1
      rw [hft]; exact ht
  unfold stepTaskE stepTask
  by_cases h : limit ≤ (startTask i t st).executing.length
  · rw [if_pos h, if_pos h, raceThrow_none_of_ok _ hall]
  · rw [if_neg h, if_neg h]

/-- On all-succeeding tasks the loop never aborts and evolves like its
pure state projection. -/
theorem runLoopE_eq_pure {α : Type} (limit : Nat) :
    ∀ (ts : List (ATask α)) (i : Nat) (st : CState α),
    (∀ t ∈ ts, okOutcome t.outcome = true) →
    (∀ f ∈ st.executing, okOutcome f.outcome = true) →
    runLoopE limit i ts st = (runLoop limit i ts st, none) := by
  intro ts
  induction ts with
  | nil => intro i st _ _; rfl
  | cons t rest ih =>
    intro i st hts hst
    have ht := hts t (by simp)
    rw [runLoopE, stepTaskE_of_ok limit i t st hst ht]
    exact ih (i + 1) (stepTask limit i t st)
      (fun u hu => hts u (by simp [hu]))
      (stepTask_exec_ok limit i t st hst ht)

/-- A loop run that did not abort evolved like its pure state
projection. -/
theorem runLoopE_none_eq {α : Type} (limit : Nat) :
    ∀ (ts : List (ATask α)) (i : Nat) (st : CState α),
    (runLoopE limit i ts st).2 = none →
    (runLoopE limit i ts st).1 = runLoop limit i ts st := by
  intro ts
  induction ts with
  | nil => intro i st _; rfl
  | cons t rest ih =>
    intro i st h
    rw [runLoopE] at h ⊢
    rcases hs : stepTaskE limit i t st with ⟨st2, sig⟩
    rw [hs] at h
    cases sig with
    | none =>
      have hst2 : st2 = stepTask limit i t st := by
        have h2 := stepTaskE_fst limit i t st
        rw [hs] at h2
        exact h2
      show (runLoopE limit (i + 1) rest st2).1 = runLoop limit i (t :: rest) st
      rw [show runLoop limit i (t :: rest) st =
        runLoop limit (i + 1) rest (stepTask limit i t st) from rfl, ← hst2]
      exact ih (i + 1) st2 h
    | some e => exact Option.noConfusion h

/-- A throwing loop body throws the rejection reason of an in-flight
task or of the task it just started. -/
theorem stepTaskE_throw {α : Type} (limit i : Nat) (t : ATask α) (st : CState α)
    (e : String) (h : (stepTaskE limit i t st).2 = some e) :
    (∃ f ∈ st.executing, f.outcome = Except.error e) ∨ t.outcome = Except.error e := by
  unfold stepTaskE at h
  by_cases hc : limit ≤ (startTask i t st).executing.length
  · rw [if_pos hc] at h
    replace h : raceThrow (startTask i t st) = some e := h
    unfold raceThrow at h
    cases hb : settledBatch (startTask i t st) with
    | nil => rw [hb] at h; cases h
    | cons w rest =>
      rw [hb] at h
      replace h : (match w.outcome with
        | Except.ok _ => none
        | Except.error e => some e) = some e := h
      cases ho : w.outcome with
      | ok v => rw [ho] at h; cases h
      | error e2 =>
        rw [ho] at h
        have he : e2 = e := by injection h
        subst he
        have hw : w ∈ (startTask i t st).executing :=
          settledBatch_subset _ w (by rw [hb]; simp)
        have hw2 : w ∈ st.executing ++ [(⟨i, t.latency, t.outcome⟩ : InFlight α)] := hw
        rcases List.mem_append.mp hw2 with h1 | h1
        · exact Or.inl ⟨w, h1, ho⟩
        · have hwt : w = ⟨i, t.latency, t.outcome⟩ := by simpa using h1
          rw [hwt] at ho
          exact Or.inr ho
  · rw [if_neg hc] at h
    cases h

/-- An aborting loop rejects with the rejection reason of a task that
was in flight at entry or of one of its own tasks. -/
theorem runLoopE_throw {α : Type} (limit : Nat) :
    ∀ (ts : List (ATask α)) (i : Nat) (st : CState α) (e : String),
    (runLoopE limit i ts st).2 = some e →
    (∃ f ∈ st.executing, f.outcome = Except.error e) ∨
    (∃ t ∈ ts, t.outcome = Except.error e) := by
  intro ts
  induction ts with
  | nil => intro i st e h; cases h
  | cons t rest ih =>
    intro i st e h
    rw [runLoopE] at h
    rcases hs : stepTaskE limit i t st with ⟨st2, sig⟩
    rw [hs] at h
    cases sig with
    | none =>
      replace h : (runLoopE limit (i + 1) rest st2).2 = some e := h
      have hst2 : st2 = stepTask limit i t st := by
        have h2 := stepTaskE_fst limit i t st
        rw [hs] at h2
        exact h2
      rcases ih (i + 1) st2 e h with ⟨f, hf, hfe⟩ | ⟨u, hu, hue⟩
      · rw [hst2] at hf
        rcases stepTask_exec_origin limit i t st f hf with ⟨g, hg, hge⟩ | hft
        · exact Or.inl ⟨g, hg, by rw [hge]; exact hfe⟩
        · exact Or.inr ⟨t, by simp, by rw [← hft]; exact hfe⟩
      · exact Or.inr ⟨u, by simp [hu], hue⟩
    | some e2 =>
      replace h : some e2 = some e := h
      have he : e2 = e := by injection h
      subst he
      have hsig : (stepTaskE limit i t st).2 = some e2 := by rw [hs]
      rcases stepTaskE_throw limit i t st e2 hsig with ⟨f, hf, hfe⟩ | ht
      · exact Or.inl ⟨f, hf, hfe⟩
      · exact Or.inr ⟨t, by simp, ht⟩

/-- The loop keeps the executing set strictly below the limit and every
recorded in-flight size at or below it, also when it aborts. -/
theorem runLoopE_flight {α : Type} (limit : Nat) :
    ∀ (ts : List (ATask α)) (i : Nat) (st : CState α),
    st.executing.length < limit → (∀ n ∈ st.flightTrace, n ≤ limit) →
    (runLoopE limit i ts st).1.executing.length < limit ∧
    ∀ n ∈ (runLoopE limit i ts st).1.flightTrace, n ≤ limit := by
  intro ts
  induction ts with
  | nil => intro i st h1 h2; exact ⟨h1, h2⟩
  | cons t rest ih =>
    intro i st h1 h2
    have hstep := stepTask_flight limit i t st h1 h2
    rw [runLoopE]
    rcases hs : stepTaskE limit i t st with ⟨st2, sig⟩
    have hst2 : st2 = stepTask limit i t st := by
      have h2 := stepTaskE_fst limit i t st
      rw [hs] at h2
      exact h2
    cases sig with
    | none =>
      show (runLoopE limit (i + 1) rest st2).1.executing.length < limit ∧
        ∀ n ∈ (runLoopE limit (i + 1) rest st2).1.flightTrace, n ≤ limit
      rw [← hst2] at hstep
      exact ih (i + 1) st2 hstep.1 hstep.2
    | some e =>
      show st2.executing.length < limit ∧ ∀ n ∈ st2.flightTrace, n ≤ limit
      rw [← hst2] at hstep
      exact hstep

/-- The loop starts a prefix of its tasks exactly once each, in input
order; it starts all of them when it does not abort. -/
theorem runLoopE_starts {α : Type} (limit : Nat) :
    ∀ (ts : List (ATask α)) (i : Nat) (st : CState α),
    ∃ k, k ≤ ts.length ∧
    (runLoopE limit i ts st).1.events.filter isStart =
      st.events.filter isStart ++ startList i k := by
  intro ts
  induction ts with
  | nil => intro i st; exact ⟨0, by omega, by simp [runLoopE, startList]⟩
  | cons t rest ih =>
    intro i st
    rw [runLoopE]
    rcases hs : stepTaskE limit i t st with ⟨st2, sig⟩
    have hst2 : st2 = stepTask limit i t st := by
      have h2 := stepTaskE_fst limit i t st
      rw [hs] at h2
      exact h2
    cases sig with
    | none =>
      rcases ih (i + 1) st2 with ⟨k, hk, heq⟩
      refine ⟨k + 1, by simp; omega, ?_⟩
      show (runLoopE limit (i + 1) rest st2).1.events.filter isStart = _
      rw [heq, hst2, stepTask_starts]
      simp [startList]
    | some e =>
      refine ⟨1, by simp, ?_⟩
      show st2.events.filter isStart = st.events.filter isStart ++ startList i 1
      rw [hst2, stepTask_starts]
      rfl

/-- The state part of the drain is untouched by the accumulator. -/
theorem drainE_fst {α : Type} :
    ∀ (fuel : Nat) (st : CState α) (acc : Option String),
    (drainE fuel st acc).1 = drainFuel fuel st := by
  intro fuel
  induction fuel with
  | zero => intro st acc; rfl
  | succ fu ih =>
    intro st acc
    rw [drainE, drainFuel]
    by_cases he : st.executing.isEmpty
    · rw [if_pos he, if_pos he]
    · rw [if_neg he, if_neg he, ih]

/-- An already-accumulated rejection survives the drain. -/
theorem drainE_acc_some {α : Type} :
    ∀ (fuel : Nat) (st : CState α) (e : String),
    (drainE fuel st (some e)).2 = some e := by
  intro fuel
  induction fuel with
  | zero => intro st e; rfl
  | succ fu ih =>
    intro st e
    rw [drainE]
    by_cases he : st.executing.isEmpty
    · rw [if_pos he]
    · rw [if_neg he]
      have horelse : (some e <|> firstError (settledBatch st)) = some e := rfl
      rw [horelse, ih]

/-- A first rejection found in a batch belongs to the batch. -/
theorem firstError_some {α : Type} :
    ∀ (l : List (InFlight α)) (e : String), firstError l = some e →
    ∃ f ∈ l, f.outcome = Except.error e := by
  intro l
  induction l with
  | nil => intro e h; cases h
  | cons f rest ih =>
    intro e h
    rw [firstError] at h
    cases ho : f.outcome with
    | ok v =>
      rw [ho] at h
      rcases ih e h with ⟨g, hg, hge⟩
      exact ⟨g, by simp [hg], hge⟩
    | error e2 =>
      rw [ho] at h
      have he : e2 = e := by injection h
      subst he
      exact ⟨f, by simp, ho⟩

/-- A batch with no first rejection is all successes. -/
theorem firstError_none {α : Type} :
    ∀ (l : List (InFlight α)), firstError l = none →
    ∀ f ∈ l, okOutcome f.outcome = true := by
  intro l
  induction l with
  | nil => intro _ f hf; cases hf
  | cons g rest ih =>
    intro h f hf
    rw [firstError] at h
    cases ho : g.outcome with
    | ok v =>
      rw [ho] at h
      rcases List.mem_cons.mp hf with rfl | hf2
      · rw [ho]; rfl
      · exact ih h f hf2
    | error e2 => rw [ho] at h; cases h

/-- A rejecting drain rejects with the accumulated reason or with the
rejection reason of a settlement pair of its entry state. -/
theorem drainE_throw {α : Type} :
    ∀ (fuel : Nat) (st : CState α) (acc : Option String) (e : String),
    (drainE fuel st acc).2 = some e →
    acc = some e ∨ ∃ p ∈ pairsOf st, p.2 = Except.error e := by
  intro fuel
  induction fuel with
  | zero => intro st acc e h; exact Or.inl h
  | succ fu ih =>
    intro st acc e h
    rw [drainE] at h
    by_cases he : st.executing.isEmpty
    · rw [if_pos he] at h
      exact Or.inl h
    · rw [if_neg he] at h
      rcases ih (advanceRace st) (acc <|> firstError (settledBatch st)) e h with
        hacc | ⟨p, hp, hpe⟩
      · cases hacco : acc with
        | some a =>
          rw [hacco] at hacc
          replace hacc : some a = some e := hacc
          exact Or.inl hacc
        | none =>
          rw [hacco] at hacc
          replace hacc : firstError (settledBatch st) = some e := hacc
          rcases firstError_some _ e hacc with ⟨f, hfb, hfe⟩
          refine Or.inr ⟨(f.idx, f.outcome), ?_, hfe⟩
          unfold pairsOf
          exact List.mem_append.mpr (Or.inr
            (List.mem_map_of_mem _ (settledBatch_subset st f hfb)))
      · exact Or.inr ⟨p, (advanceRace_pairs st).mem_iff.mp hp, hpe⟩

/-- A drain that does not reject started with no accumulated rejection
and every task still in flight succeeding. -/
theorem drainE_none {α : Type} :
    ∀ (fuel : Nat) (st : CState α) (acc : Option String),
    st.executing.length ≤ fuel → (drainE fuel st acc).2 = none →
    acc = none ∧ ∀ f ∈ st.executing, okOutcome f.outcome = true := by
  intro fuel
  induction fuel with
  | zero =>
    intro st acc hle h
    have hnil : st.executing = [] := List.length_eq_zero.mp (Nat.le_zero.mp hle)
    exact ⟨h, by rw [hnil]; intro f hf; cases hf⟩
  | succ fu ih =>
    intro st acc hle h
    rw [drainE] at h
    by_cases he : st.executing.isEmpty
    · rw [if_pos he] at h
      have hnil : st.executing = [] := List.isEmpty_iff.mp he
      exact ⟨h, by rw [hnil]; intro f hf; cases hf⟩
    · rw [if_neg he] at h
      have hne : st.executing ≠ [] := by
        intro hh
        rw [hh] at he
        exact he rfl
      cases hacc2 : (acc <|> firstError (settledBatch st)) with
      | some a =>
        rw [hacc2, drainE_acc_some] at h
        cases h
      | none =>
        rw [hacc2] at h
        have hsplit : acc = none ∧ firstError (settledBatch st) = none := by
          cases haco : acc with
          | some a =>
            rw [haco] at hacc2
            replace hacc2 : some a = none := hacc2
            cases hacc2
          | none =>
            rw [haco] at hacc2
            replace hacc2 : firstError (settledBatch st) = none := hacc2
            exact ⟨rfl, hacc2⟩
        have hrec := ih (advanceRace st) none
          (by have := advanceRace_executing_lt st hne; omega) h
        refine ⟨hsplit.1, ?_⟩
        intro f hf
        by_cases hp : (f.remaining == minRemaining st.executing) = true
        · exact firstError_none _ hsplit.2 f (List.mem_filter.mpr ⟨hf, hp⟩)
        · have hmem : ({ f with remaining := f.remaining - minRemaining st.executing } :
              InFlight α) ∈ (advanceRace st).executing := by
            show _ ∈ (st.executing.filter
              (fun g => !(g.remaining == minRemaining st.executing))).map
              (fun g => { g with remaining := g.remaining - minRemaining st.executing })
            exact List.mem_map_of_mem _ (List.mem_filter.mpr ⟨hf, by simpa using hp⟩)
          have hok2 := hrec.2 _ hmem
          exact hok2

/-- A lookup hit is a log entry. -/
theorem lookupLog_mem {α : Type} :
    ∀ (l : List (Nat × Except String α)) (i : Nat) (o : Except String α),
    lookupLog i l = some o → (i, o) ∈ l := by
  intro l
  induction l with
  | nil => intro i o h; cases h
  | cons p rest ih =>
    intro i o h
    obtain ⟨j, q⟩ := p
    rw [lookupLog] at h
    by_cases hij : (i == j) = true
    · rw [if_pos hij] at h
      have hq : q = o := by injection h
      have hje : i = j := by simpa using hij
      subst hq
      subst hje
      simp
    · rw [if_neg hij] at h
      exact List.mem_cons.mpr (Or.inr (ih i o h))

/-- Every outcome in the canonical pair list is the outcome of one of
the tasks. -/
theorem canonical_outcome_mem {α : Type} :
    ∀ (ts : List (ATask α)) (i j : Nat) (o : Except String α),
    (j, o) ∈ canonical i ts → ∃ t ∈ ts, o = t.outcome := by
  intro ts
  induction ts with
  | nil => intro i j o h; cases h
  | cons t rest ih =>
    intro i j o h
    rcases List.mem_cons.mp h with heq | hmem
    · have := congrArg Prod.snd heq
      exact ⟨t, by simp, by simpa using this⟩
    · rcases ih (i + 1) j o hmem with ⟨u, hu, ho⟩
      exact ⟨u, by simp [hu], ho⟩

/-- A first settled rejection is an actual log record at one of the
indices. -/
theorem firstSettledError_some {α : Type} :
    ∀ (indices : List Nat) (log : List (Nat × Except String α)) (e : String),
    firstSettledError indices log = some e →
    ∃ i ∈ indices, lookupLog i log = some (Except.error e) := by
  intro indices
  induction indices with
  | nil => intro log e h; cases h
  | cons i rest ih =>
    intro log e h
    rw [firstSettledError] at h
    cases hl : lookupLog i log with
    | none =>
      rw [hl] at h
      rcases ih log e h with ⟨j, hj, hje⟩
      exact ⟨j, by simp [hj], hje⟩
    | some o =>
      cases o with
      | ok v =>
        rw [hl] at h
        rcases ih log e h with ⟨j, hj, hje⟩
        exact ⟨j, by simp [hj], hje⟩
      | error e2 =>
        rw [hl] at h
        have he : e2 = e := by injection h
        subst he
        exact ⟨i, by simp, hl⟩

/-- Without a first settled rejection, no index looks up to a
rejection. -/
theorem firstSettledError_none {α : Type} :
    ∀ (indices : List Nat) (log : List (Nat × Except String α)),
    firstSettledError indices log = none →
    ∀ i ∈ indices, ∀ e, lookupLog i log ≠ some (Except.error e) := by
  intro indices
  induction indices with
  | nil => intro log _ i hi; cases hi
  | cons j rest ih =>
    intro log h i hi e hcon
    rw [firstSettledError] at h
    rcases List.mem_cons.mp hi with rfl | hi2
    · rw [hcon] at h
      cases h
    · cases hl : lookupLog j log with
      | none =>
        rw [hl] at h
        exact ih log h i hi2 e hcon
      | some o =>
        cases o with
        | ok v =>
          rw [hl] at h
          exact ih log h i hi2 e hcon
        | error e2 =>
          rw [hl] at h
          cases h

/-- Converse direction: clean lookups give no first settled rejection. -/
theorem firstSettledError_eq_none {α : Type} :
    ∀ (indices : List Nat) (log : List (Nat × Except String α)),
    (∀ i ∈ indices, ∀ e, lookupLog i log ≠ some (Except.error e)) →
    firstSettledError indices log = none := by
  intro indices
  induction indices with
  | nil => intro log _; rfl
  | cons j rest ih =>
    intro log h
    rw [firstSettledError]
    cases hl : lookupLog j log with
    | none => exact ih log (fun i hi => h i (by simp [hi]))
    | some o =>
      cases o with
      | ok v => exact ih log (fun i hi => h i (by simp [hi]))
      | error e2 => exact absurd hl (h j (by simp) e2)

/-- Converse direction: an all-success batch has no first rejection. -/
theorem firstError_eq_none {α : Type} :
    ∀ (l : List (InFlight α)),
    (∀ f ∈ l, okOutcome f.outcome = true) → firstError l = none := by
  intro l
  induction l with
  | nil => intro _; rfl
  | cons f rest ih =>
    intro h
    rw [firstError]
    cases ho : f.outcome with
    | ok v => exact ih (fun g hg => h g (by simp [hg]))
    | error e2 =>
      have := h f (by simp)
      rw [ho] at this
      simp [okOutcome] at this

/-- Converse direction: a drain over succeeding tasks with no
accumulated rejection does not reject. -/
theorem drainE_eq_none {α : Type} :
    ∀ (fuel : Nat) (st : CState α),
    (∀ f ∈ st.executing, okOutcome f.outcome = true) →
    (drainE fuel st none).2 = none := by
  intro fuel
  induction fuel with
  | zero => intro st _; rfl
  | succ fu ih =>
    intro st h
    rw [drainE]
    by_cases he : st.executing.isEmpty
    · rw [if_pos he]
    · rw [if_neg he]
      have hbatch : firstError (settledBatch st) = none :=
        firstError_eq_none _ (fun f hf => h f (settledBatch_subset st f hf))
      have horelse : ((none : Option String) <|> firstError (settledBatch st)) =
          none := by rw [hbatch]; rfl
      rw [horelse]
      refine ih (advanceRace st) ?_
      intro f hf
      rcases advanceRace_exec_outcome st f hf with ⟨g, hg, hge⟩
      rw [← hge]
      exact h g hg

end AsyncUtils

/-- C1 counterexample: with three tasks of scrambled latencies whose
second task fails fastest, under limit 2, the awaited Promise.race
adopts the rejecting task and throws, so concurrentLimit rejects
wholesale with that error instead of resolving with a results array
carrying the failure in slot 1, and the third task is never started. -/
theorem asyncUtils_concurrentLimit_counterexample :
    (AsyncUtils.concurrentLimit demoTasks 2).1 = Except.error "boom" ∧
    (∀ vs, ¬((AsyncUtils.concurrentLimit demoTasks 2).1 = Except.ok vs)) ∧
    (AsyncUtils.concurrentLimit demoTasks 2).2.events.filter AsyncUtils.isStart =
      [AsyncUtils.CEvent.start 0, AsyncUtils.CEvent.start 1] ∧
    ¬((AsyncUtils.concurrentLimit demoTasks 2).2.events.filter AsyncUtils.isStart =
      AsyncUtils.startList 0 demoTasks.length) := by
  refine ⟨by decide, ?_, by decide, by decide⟩
  intro vs h
  rw [show (AsyncUtils.concurrentLimit demoTasks 2).1 = Except.error "boom"
    from by decide] at h
  cases h

/-- C1 amended: for every task list and every concurrency limit of at
least 1: when every task succeeds, concurrentLimit resolves with a
results array whose i-th slot carries the settlement of the i-th input
task, index-stable regardless of completion order, all tasks are
started exactly once in input order, and a limit of 1 executes them
strictly sequentially; a rejection is never delivered per slot: an
error result carries the rejection reason of one of the failing tasks
(the whole call rejects, through the awaited race or through
Promise.all), and a resolved array is only possible when every task
succeeded; at no instant does the recorded in-flight size exceed the
limit; and in every run, aborted or not, the tasks started form a
prefix of the input started once each, so a failing task is never
retried. -/
theorem asyncUtils_concurrentLimit_spec :
    ∀ (α : Type) (tasks : List (AsyncUtils.ATask α)) (concurrency : Nat),
    1 ≤ concurrency →
    ((∀ t ∈ tasks, AsyncUtils.okOutcome t.outcome = true) →
      (AsyncUtils.concurrentLimit tasks concurrency).1 =
        Except.ok (tasks.map (fun t => some t.outcome)) ∧
      (AsyncUtils.concurrentLimit tasks concurrency).2.events.filter
        AsyncUtils.isStart = AsyncUtils.startList 0 tasks.length ∧
      (concurrency = 1 →
        (AsyncUtils.concurrentLimit tasks concurrency).2.events =
          AsyncUtils.seqEvents 0 tasks)) ∧
    (∀ e, (AsyncUtils.concurrentLimit tasks concurrency).1 = Except.error e →
      ∃ t ∈ tasks, t.outcome = Except.error e) ∧
    (∀ vs, (AsyncUtils.concurrentLimit tasks concurrency).1 = Except.ok vs →
      ∀ t ∈ tasks, AsyncUtils.okOutcome t.outcome = true) ∧
    (∀ n ∈ (AsyncUtils.concurrentLimit tasks concurrency).2.flightTrace,
      n ≤ concurrency) ∧
    (∃ k, k ≤ tasks.length ∧
      (AsyncUtils.concurrentLimit tasks concurrency).2.events.filter
        AsyncUtils.isStart = AsyncUtils.startList 0 k) := by
  intro α tasks concurrency hc
  have hnorm : AsyncUtils.normLimit concurrency = concurrency := by
    unfold AsyncUtils.normLimit
    have hcz : (concurrency == 0) = false := by
      have : concurrency ≠ 0 := by omega
      simpa using this
    rw [hcz]
    simp
  by_cases hempty : tasks.length == 0
  · have htasks : tasks = [] := List.length_eq_zero.mp (by simpa using hempty)
    subst htasks
    refine ⟨fun _ => ⟨rfl, rfl, fun _ => rfl⟩, ?_, ?_, ?_, 0, by omega, rfl⟩
    · intro e h
      cases h
    · intro vs _ t ht
      cases ht
    · intro n hn
      cases hn
  · have hne : (tasks.length == 0) = false := by simpa using hempty
    rcases hrl : AsyncUtils.runLoopE concurrency 0 tasks AsyncUtils.initState
      with ⟨st, sig⟩
    have hflight0 := AsyncUtils.runLoopE_flight concurrency tasks 0
      AsyncUtils.initState (by simpa [AsyncUtils.initState] using hc)
      (fun n hn => absurd hn (by simp [AsyncUtils.initState]))
    rw [hrl] at hflight0
    have hstarts0 := AsyncUtils.runLoopE_starts concurrency tasks 0
      AsyncUtils.initState
    rw [hrl] at hstarts0
    have hstartsSt : ∃ k, k ≤ tasks.length ∧
        st.events.filter AsyncUtils.isStart = AsyncUtils.startList 0 k := by
      rcases hstarts0 with ⟨k, hk, heq⟩
      exact ⟨k, hk, by simpa [AsyncUtils.initState] using heq⟩
    cases sig with
    | some e =>
      have hcl : AsyncUtils.concurrentLimit tasks concurrency =
          (Except.error e, st) := by
        unfold AsyncUtils.concurrentLimit
        rw [hne, hnorm, hrl]
        simp only [Bool.false_eq_true, if_false]
      have hthrow : ∃ t ∈ tasks, t.outcome = Except.error e := by
        rcases AsyncUtils.runLoopE_throw concurrency tasks 0 AsyncUtils.initState e
          (by rw [hrl]) with ⟨f, hf, _⟩ | hts
        · exact absurd hf (by simp [AsyncUtils.initState])
        · exact hts
      refine ⟨?_, ?_, ?_, ?_, ?_⟩
      · intro hok
        have hpure := AsyncUtils.runLoopE_eq_pure concurrency tasks 0
          AsyncUtils.initState hok (fun f hf => absurd hf (by simp [AsyncUtils.initState]))
        rw [hrl] at hpure
        have : (some e : Option String) = none := congrArg Prod.snd hpure
        cases this
      · intro e2 h2
        rw [hcl] at h2
        have he : e = e2 := by injection h2
        rw [← he]
        exact hthrow
      · intro vs h2
        rw [hcl] at h2
        cases h2
      · intro n hn
        rw [hcl] at hn
        exact hflight0.2 n hn
      · rcases hstartsSt with ⟨k, hk, heq⟩
        exact ⟨k, hk, by rw [hcl]; exact heq⟩
    | none =>
      have hpureSt : st = AsyncUtils.runLoop concurrency 0 tasks AsyncUtils.initState := by
        have h2 := AsyncUtils.runLoopE_none_eq concurrency tasks 0
          AsyncUtils.initState (by rw [hrl])
        rw [hrl] at h2
        exact h2
      have hperm : List.Perm (AsyncUtils.pairsOf st)
          (AsyncUtils.canonical 0 tasks) := by
        rw [hpureSt]
        have h2 := AsyncUtils.runLoop_pairs concurrency tasks 0
          (AsyncUtils.initState (α := α))
        refine h2.trans ?_
        show List.Perm (AsyncUtils.pairsOf AsyncUtils.initState ++
          AsyncUtils.canonical 0 tasks) (AsyncUtils.canonical 0 tasks)
        exact List.Perm.refl _
      have hkeys : ((AsyncUtils.pairsOf st).map Prod.fst).Nodup :=
        (hperm.map Prod.fst).nodup_iff.mpr (AsyncUtils.canonical_keys_nodup tasks 0)
      have hlogkeys : (st.log.map Prod.fst).Nodup := by
        have hsplit : (AsyncUtils.pairsOf st).map Prod.fst =
            st.log.map Prod.fst ++
            (st.executing.map (fun f => (f.idx, f.outcome))).map Prod.fst := by
          unfold AsyncUtils.pairsOf
          rw [List.map_append]
        rw [hsplit] at hkeys
        exact (List.nodup_append.mp hkeys).1
      have hlog_task : ∀ (i : Nat) (o : Except String α), (i, o) ∈ st.log →
          ∃ t ∈ tasks, o = t.outcome := by
        intro i o hmem
        refine AsyncUtils.canonical_outcome_mem tasks 0 i o (hperm.mem_iff.mp ?_)
        unfold AsyncUtils.pairsOf
        exact List.mem_append.mpr (Or.inl hmem)
      have hexec_task : ∀ f ∈ st.executing, ∃ t ∈ tasks, f.outcome = t.outcome := by
        intro f hf
        refine AsyncUtils.canonical_outcome_mem tasks 0 f.idx f.outcome
          (hperm.mem_iff.mp ?_)
        unfold AsyncUtils.pairsOf
        exact List.mem_append.mpr (Or.inr (List.mem_map_of_mem _ hf))
      rcases hdr : AsyncUtils.drainE st.executing.length st
          (AsyncUtils.firstSettledError (List.range tasks.length) st.log)
        with ⟨final, dsig⟩
      have hfinal : final = AsyncUtils.drainFuel st.executing.length st := by
        have h2 := AsyncUtils.drainE_fst st.executing.length st
          (AsyncUtils.firstSettledError (List.range tasks.length) st.log)
        rw [hdr] at h2
        exact h2
      have hfinflight : ∀ n ∈ final.flightTrace, n ≤ concurrency := by
        rw [hfinal]
        exact AsyncUtils.drainFuel_flight concurrency st.executing.length st
          hflight0.1 hflight0.2
      have hfinstarts : final.events.filter AsyncUtils.isStart =
          st.events.filter AsyncUtils.isStart := by
        rw [hfinal]
        exact AsyncUtils.drainFuel_starts st.executing.length st
      cases dsig with
      | some e =>
        have hcl : AsyncUtils.concurrentLimit tasks concurrency =
            (Except.error e, final) := by
          unfold AsyncUtils.concurrentLimit
          rw [hne, hnorm, hrl]
          simp only [Bool.false_eq_true, if_false]
          rw [hdr]
        have horigin : ∃ t ∈ tasks, t.outcome = Except.error e := by
          rcases AsyncUtils.drainE_throw st.executing.length st
            (AsyncUtils.firstSettledError (List.range tasks.length) st.log) e
            (by rw [hdr]) with hacc | ⟨p, hp, hpe⟩
          · rcases AsyncUtils.firstSettledError_some (List.range tasks.length)
              st.log e hacc with ⟨i, _, hlook⟩
            rcases hlog_task i (Except.error e)
              (AsyncUtils.lookupLog_mem st.log i (Except.error e) hlook)
              with ⟨t, ht, hto⟩
            exact ⟨t, ht, hto.symm⟩
          · obtain ⟨j, o⟩ := p
            rcases AsyncUtils.canonical_outcome_mem tasks 0 j o
              (hperm.mem_iff.mp hp) with ⟨t, ht, hto⟩
            refine ⟨t, ht, ?_⟩
            rw [← hto]
            exact hpe
        refine ⟨?_, ?_, ?_, ?_, ?_⟩
        · intro hok
          have hokexec : ∀ f ∈ st.executing, AsyncUtils.okOutcome f.outcome = true := by
            intro f hf
            rcases hexec_task f hf with ⟨t, ht, hto⟩
            rw [hto]
            exact hok t ht
          have hok_log : AsyncUtils.firstSettledError (List.range tasks.length)
              st.log = none := by
            refine AsyncUtils.firstSettledError_eq_none _ _ ?_
            intro i _ e2 hcon
            rcases hlog_task i (Except.error e2)
              (AsyncUtils.lookupLog_mem st.log i (Except.error e2) hcon)
              with ⟨t, ht, hto⟩
            have := hok t ht
            rw [← hto] at this
            simp [AsyncUtils.okOutcome] at this
          have hnone := AsyncUtils.drainE_eq_none st.executing.length st hokexec
          rw [hok_log] at hdr
          rw [hdr] at hnone
          cases hnone
        · intro e2 h2
          rw [hcl] at h2
          have he : e = e2 := by injection h2
          rw [← he]
          exact horigin
        · intro vs h2
          rw [hcl] at h2
          cases h2
        · intro n hn
          rw [hcl] at hn
          exact hfinflight n hn
        · rcases hstartsSt with ⟨k, hk, heq⟩
          refine ⟨k, hk, ?_⟩
          rw [hcl]
          show final.events.filter AsyncUtils.isStart = AsyncUtils.startList 0 k
          rw [hfinstarts]
          exact heq
      | none =>
        have hdrnone := AsyncUtils.drainE_none st.executing.length st
          (AsyncUtils.firstSettledError (List.range tasks.length) st.log)
          (Nat.le_refl _) (by rw [hdr])
        have hcl : AsyncUtils.concurrentLimit tasks concurrency =
            (Except.ok ((List.range tasks.length).map
              (fun i => AsyncUtils.lookupLog i final.log)), final) := by
          unfold AsyncUtils.concurrentLimit
          rw [hne, hnorm, hrl]
          simp only [Bool.false_eq_true, if_false]
          rw [hdr]
        have halltasks : ∀ t ∈ tasks, AsyncUtils.okOutcome t.outcome = true := by
          intro t ht
          cases hto : t.outcome with
          | ok v => rfl
          | error e =>
            rcases List.mem_iff_get.mp ht with ⟨⟨k, hk⟩, hget⟩
            have hcan : ((k : Nat), Except.error e) ∈ AsyncUtils.canonical 0 tasks := by
              have h2 := AsyncUtils.canonical_mem_get tasks 0 k hk
              rw [hget, hto] at h2
              simpa using h2
            have hpairs : ((k : Nat), Except.error e) ∈ AsyncUtils.pairsOf st :=
              hperm.mem_iff.mpr hcan
            unfold AsyncUtils.pairsOf at hpairs
            rcases List.mem_append.mp hpairs with hinlog | hinexec
            · have hlook : AsyncUtils.lookupLog k st.log = some (Except.error e) :=
                AsyncUtils.lookupLog_eq st.log k (Except.error e) hlogkeys hinlog
              have hkn : (k : Nat) ∈ List.range tasks.length :=
                List.mem_range.mpr hk
              exact absurd hlook
                (AsyncUtils.firstSettledError_none _ _ hdrnone.1 k hkn e)
            · rcases List.mem_map.mp hinexec with ⟨f, hf, hfe⟩
              have hfo : f.outcome = Except.error e := congrArg Prod.snd hfe
              have := hdrnone.2 f hf
              rw [hfo] at this
              simp [AsyncUtils.okOutcome] at this
        refine ⟨?_, ?_, fun vs _ => halltasks, ?_, ?_⟩
        · intro _
          have hfinal2 : final = AsyncUtils.finalState tasks concurrency := by
            rw [hfinal, hpureSt]
            rfl
          have hfin := AsyncUtils.finalState_log tasks concurrency
          refine ⟨?_, ?_, ?_⟩
          · rw [hcl]
            show Except.ok ((List.range tasks.length).map
              (fun i => AsyncUtils.lookupLog i final.log)) =
              Except.ok (tasks.map (fun t => some t.outcome))
            congr 1
            have hnd : ((AsyncUtils.finalState tasks concurrency).log.map
                Prod.fst).Nodup := by
              have hmap := hfin.2.map Prod.fst
              exact hmap.nodup_iff.mpr (AsyncUtils.canonical_keys_nodup tasks 0)
            refine List.ext_get ?_ ?_
            · simp
            · intro n h1 h2
              have hn : n < tasks.length := by simpa using h2
              have hget1 : ((List.range tasks.length).map
                  (fun i => AsyncUtils.lookupLog i final.log)).get ⟨n, h1⟩ =
                  AsyncUtils.lookupLog n final.log := by
                simp
              rw [hget1, hfinal2]
              have hmem : (n, (tasks.get ⟨n, hn⟩).outcome) ∈
                  AsyncUtils.canonical 0 tasks := by
                have h3 := AsyncUtils.canonical_mem_get tasks 0 n hn
                simpa using h3
              have hmemlog : (n, (tasks.get ⟨n, hn⟩).outcome) ∈
                  (AsyncUtils.finalState tasks concurrency).log :=
                hfin.2.mem_iff.mpr hmem
              rw [AsyncUtils.lookupLog_eq _ n _ hnd hmemlog]
              simp
          · rw [hcl]
            show final.events.filter AsyncUtils.isStart =
              AsyncUtils.startList 0 tasks.length
            rw [hfinstarts, hpureSt]
            have h2 := AsyncUtils.runLoop_starts concurrency tasks 0
              (AsyncUtils.initState (α := α))
            rw [h2]
            rfl
          · intro hone
            subst hone
            rw [hcl]
            show final.events = AsyncUtils.seqEvents 0 tasks
            have hrun1 := AsyncUtils.runLoop_one tasks 0
              (AsyncUtils.initState (α := α)) rfl
            rw [hfinal, hpureSt, hrun1.1]
            show (AsyncUtils.runLoop 1 0 tasks AsyncUtils.initState).events =
              AsyncUtils.seqEvents 0 tasks
            rw [hrun1.2]
            rfl
        · intro e h2
          rw [hcl] at h2
          cases h2
        · intro n hn
          rw [hcl] at hn
          exact hfinflight n hn
        · rcases hstartsSt with ⟨k, hk, heq⟩
          refine ⟨k, hk, ?_⟩
          rw [hcl]
          show final.events.filter AsyncUtils.isStart = AsyncUtils.startList 0 k
          rw [hfinstarts]
          exact heq

/-- C1 witness: the all-success scrambled tasks under limit 2 resolve
index-stably and sequentially under limit 1; the demo tasks with the
fast failing slot reject wholesale with that failure; and the in-flight
sizes stay within the limit. -/
theorem asyncUtils_concurrentLimit_spec_witness :
    ((AsyncUtils.concurrentLimit demoOkTasks 2).1 =
      Except.ok (demoOkTasks.map (fun t => some t.outcome))) ∧
    ((AsyncUtils.concurrentLimit demoOkTasks 1).2.events =
      AsyncUtils.seqEvents 0 demoOkTasks) ∧
    (∃ t ∈ demoTasks, t.outcome = Except.error "boom") ∧
    (∀ n ∈ (AsyncUtils.concurrentLimit demoTasks 2).2.flightTrace, n ≤ 2) :=
  ⟨((asyncUtils_concurrentLimit_spec Nat demoOkTasks 2 (by decide)).1 (by decide)).1,
   ((asyncUtils_concurrentLimit_spec Nat demoOkTasks 1 (by decide)).1 (by decide)).2.2 rfl,
   (asyncUtils_concurrentLimit_spec Nat demoTasks 2 (by decide)).2.1 "boom" (by decide),
   (asyncUtils_concurrentLimit_spec Nat demoTasks 2 (by decide)).2.2.2.1⟩

end A11y
